import Mathlib

/-!
The event loop of `app.c` (simpleHeaterController)

A shallow embedding of `src/app.c` (`logPrint`, `terminateApp`, `txrx`,
`controlOutput`, `setPeriod`, `main`) and of `getSettings` of `src/getSettings.c`,
followed by theorems about it.

Modelling conventions.

* The two C structs are Lean structures with the field names of the source.
  The character arrays (`buffer`, `controlSequence`, both `MAX_BUFFER_LEN`
  bytes) are lists of characters; `memset` produces `MAX_BUFFER_LEN` NUL
  characters.
* `int` fields are mathematical integers and `unsigned int count` is a natural
  number.  `count` is only incremented under the guard
  `count < MAX_BUFFER_LEN-1`, and `periodCounter` never exceeds
  `numberOfPeriods + 1 <= MAX_BUFFER_LEN` in a state the loop can reach, so no
  machine arithmetic wraps there.
* Everything the environment decides during one loop iteration is gathered in
  a `Tick`: the result of `select`, the value `select` leaves in `timeout`,
  the characters `getc(stdin)` delivers, and the two clock readings of
  `timeLog()`.  Clock readings are integers (microseconds); the conversion to
  `double` is not modelled.
* The input is a list of characters, one per byte (codes 0 to 255):
  `getc(stdin)` delivers them one by one and returns `EOF` when the list is
  exhausted.  The type `char` is signed, so the narrowing `char temp = getc(stdin)`
  makes the byte 0xFF (`EOF_CHAR`) equal to `EOF`: it ends the line like the end of
  the input.
* A `float` is the rational number it stands for; a `float` operation is the
  exact operation followed by the rounding `toFloat` to IEEE binary32.  `floor`
  and `round` are the mathematical functions.  `getSettings` runs on the list of
  options that `getopt` delivers.
* The functions `scanLineChecked`, `txrxChecked` and `controlOutputChecked`
  repeat the code with every array access checked against `MAX_BUFFER_LEN`;
  they are used to state that accesses stay inside the arrays.
* Every call of `logPrint` (and the plain `printf` of `controlOutput`) is
  recorded as an `Event` that carries the message and the sinks it was written
  to.  Functions return the events they produced.
-/

namespace HeaterController

/-! ## Constants of `getSettings.h` and `stdlib.h` -/

/-- Size of the character arrays (`#define MAX_BUFFER_LEN 101`). -/
def MAX_BUFFER_LEN : Nat := 101

/-- Process status `EXIT_SUCCESS`. -/
def EXIT_SUCCESS : Int := 0

/-- Process status `EXIT_FAILURE`. -/
def EXIT_FAILURE : Int := 1

/-- The NUL character written by `memset(…, 0, …)`. -/
def NUL : Char := Char.ofNat 0

/-- The `char` that the byte 0xFF becomes in `char temp = getc(stdin)`.  The type `char`
is signed (as with gcc on x86), so this `char` has the value -1 of `EOF`, and the test
`temp != EOF` fails at this byte as it does at the end of the input. -/
def EOF_CHAR : Char := Char.ofNat 255

/-! ## Data model -/

/-- The C `struct timeval`. -/
structure Timeval where
  tv_sec : Int
  tv_usec : Int
  deriving DecidableEq, Repr

/-- The messages of the program, one constructor per format string.

* `error1`: `"Error 1\n"`
* `quitApplication`: `"Quit application\n"`
* `bufferFull`: `"Warning: buffer full\n"`
* `newControlSequence`: `"New control sequence:\n"`
* `echo text`: `"%s"` applied to the buffer
* `invalidSequence`: `"Invalid control sequence received\n"`
* `noInputSequence`: `"No input sequence.\n"`
* `on`: `"[ON]"`, `off`: `"[OFF]"`
* `newline`: the `printf("\n")` of `controlOutput`
* `elapsed d`: `">%0.3f\n"` applied to the elapsed time `d`
* `settingsHeader`, `settingsPeriod`, `settingsLogFile`, `typeSequence`: the
  four start-up messages of `main`. -/
inductive Msg where
  | error1
  | quitApplication
  | bufferFull
  | newControlSequence
  | echo (text : List Char)
  | invalidSequence
  | noInputSequence
  | on
  | off
  | newline
  | elapsed (d : Int)
  | settingsHeader
  | settingsPeriod
  | settingsLogFile
  | typeSequence
  deriving DecidableEq, Repr

/-- One output call: the message, whether it went to `stdout`, and whether it
went to the log file. -/
structure Event where
  msg : Msg
  console : Bool
  file : Bool
  deriving DecidableEq, Repr

/-- The C `AppStruct`.  `dSet` records whether descriptor 0 is in the set,
`logPointer` is `none` for `NULL`. -/
structure AppStruct where
  dSet : Bool
  timeout : Timeval
  period : Timeval
  timeKeeper : Int
  buffer : List Char
  updateTimer : Bool
  isCommand : Bool
  debug : Bool
  logFile : String
  logPointer : Option Nat
  deriving DecidableEq, Repr

/-- The C `ControlStruct`. -/
structure ControlStruct where
  cyclePeriod : Rat
  controlSequence : List Char
  numberOfPeriods : Int
  periodCounter : Int
  deriving DecidableEq, Repr

/-- Result of `select(1, &dSet, NULL, NULL, &timeout)`: negative (`error`),
zero descriptors ready (`timeout`), or descriptor 0 readable, together with the
characters that the following `getc(stdin)` calls deliver (`getc` returns `EOF`
once the list is exhausted). -/
inductive SelectResult where
  | error
  | timeout
  | ready (stdin : List Char)
  deriving DecidableEq, Repr

/-- What the environment contributes to one iteration of the loop of `main`. -/
structure Tick where
  /-- result of `select` -/
  sel : SelectResult
  /-- the value `select` leaves in `timeout` (the time not slept) -/
  left : Timeval
  /-- reading of `timeLog()` inside `txrx` -/
  tRx : Int
  /-- reading of `timeLog()` inside `controlOutput` -/
  tOut : Int
  deriving DecidableEq, Repr

/-! ## `logPrint` and `terminateApp` -/

/-- Function `logPrint(allowTerminal, appStruct, fmt, ...)`: the text goes to `stdout`
if `debug || allowTerminal`, and to the log file if
`debug && logPointer != NULL`. -/
def logPrint (allowTerminal : Bool) (appStruct : AppStruct) (msg : Msg) : List Event :=
  [{ msg := msg
     console := appStruct.debug || allowTerminal
     file := appStruct.debug && appStruct.logPointer.isSome }]

/-- How the process ended: the status passed to `exit` and whether `fclose`
was called on the log file. -/
structure Exit where
  status : Int
  closed : Bool
  deriving DecidableEq, Repr

/-- Function `terminateApp(appStruct, stat)`: close the log file if `logPointer` is not
`NULL`, then `exit(stat)`. -/
def terminateApp (appStruct : AppStruct) (stat : Int) : Exit :=
  { status := stat, closed := appStruct.logPointer.isSome }

/-! ## `txrx` -/

/-- The local variables of the `while` loop of `txrx` together with the struct
it mutates and the events produced so far. -/
structure ScanState where
  app : AppStruct
  count : Nat
  isValid : Bool
  log : List Event
  deriving DecidableEq, Repr

/-- How the `while` loop of `txrx` is left: by the `return 1` of the `q`
branch, or because `temp` is `EOF` or a line feed. -/
inductive ScanResult where
  | quit (st : ScanState)
  | endOfLine (st : ScanState)
  deriving DecidableEq, Repr

/-- The loop `while(temp != EOF && temp != '\n') { … temp = getc(stdin); }` of
`txrx`, on the bytes that `getc` delivers, each narrowed by `char temp = getc(stdin)`.
The loop is left at the end of the input, at the byte 0xFF (which the narrowing makes equal
to `EOF`) and at the line feed. -/
def scanLine : List Char → ScanState → ScanResult
  | [], st => .endOfLine st
  | temp :: rest, st =>
    if temp = EOF_CHAR ∨ temp = '\n' then .endOfLine st
    else if temp = 'q' ∧ st.count = 0 then
      .quit { st with log := st.log ++ logPrint false st.app .quitApplication }
    else
      let st1 : ScanState :=
        if temp = 'd' ∧ st.count = 0 then
          { st with app := { st.app with debug := !st.app.debug, isCommand := true } }
        else st
      let st2 : ScanState :=
        if st1.isValid = true ∧ st1.count < MAX_BUFFER_LEN - 1 then
          let app1 := { st1.app with buffer := st1.app.buffer.set st1.count temp }
          let count1 := st1.count + 1
          let isValid1 := if temp ≠ '0' ∧ temp ≠ '1' then false else st1.isValid
          let log1 :=
            if count1 = MAX_BUFFER_LEN - 1 then st1.log ++ logPrint false app1 .bufferFull
            else st1.log
          { app := app1, count := count1, isValid := isValid1, log := log1 }
        else st1
      scanLine rest st2

/-- The first block of `txrx`: `FD_ZERO`, `FD_SET(0, …)` and the reload of
`timeout` from `period` when `updateTimer` is set.  The result is what is
passed to `select`. -/
def armTimer (appStruct : AppStruct) : AppStruct :=
  let app1 := { appStruct with dSet := true }
  if app1.updateTimer = true then { app1 with timeout := app1.period } else app1

/-- The text `"%s"` prints for a character array: the characters before the
first NUL.  When the array holds no NUL the C read runs past its end; here the
whole array is returned, and `txrxChecked` reports the fault. -/
def cString (buf : List Char) : List Char :=
  buf.takeWhile (fun c => c ≠ NUL)

/-- What a call of `txrx` yields: the returned `int`, both structs, and the
events produced. -/
structure TxrxResult where
  ret : Int
  app : AppStruct
  ctl : ControlStruct
  log : List Event
  deriving DecidableEq, Repr

/-- The function `txrx` of `app.c`. -/
def txrx (appStruct : AppStruct) (controlStruct : ControlStruct) (env : Tick) : TxrxResult :=
  let app0 := armTimer appStruct
  match env.sel with
  | .error =>
    { ret := -1, app := app0, ctl := controlStruct, log := logPrint false app0 .error1 }
  | .timeout =>
    let app1 := { app0 with dSet := false, timeout := env.left }
    { ret := 0, app := { app1 with updateTimer := true }, ctl := controlStruct, log := [] }
  | .ready stdin =>
    let app1 := { app0 with dSet := true, timeout := env.left }
    let app2 := { app1 with buffer := List.replicate MAX_BUFFER_LEN NUL, isCommand := false }
    match scanLine stdin { app := app2, count := 0, isValid := true, log := [] } with
    | .quit st => { ret := 1, app := st.app, ctl := controlStruct, log := st.log }
    | .endOfLine st =>
      let app3 := { st.app with buffer := st.app.buffer.set st.count '\n' }
      if st.isValid = true then
        let log1 :=
          if app3.debug = true then
            st.log ++ logPrint false app3 .newControlSequence
              ++ logPrint false app3 (.echo (cString app3.buffer))
          else st.log
        let ctl1 := { controlStruct with
          controlSequence :=
            app3.buffer.take st.count ++ (List.replicate MAX_BUFFER_LEN NUL).drop st.count
          periodCounter := 0
          numberOfPeriods := st.count }
        let app4 := { app3 with timeKeeper := env.tRx }
        { ret := 0, app := { app4 with updateTimer := true }, ctl := ctl1, log := log1 }
      else
        let log1 :=
          if app3.isCommand = false then st.log ++ logPrint false app3 .invalidSequence
          else st.log
        { ret := 0, app := { app3 with updateTimer := false }, ctl := controlStruct, log := log1 }

/-! ## `controlOutput` -/

/-- The array read `controlSequence[periodCounter]`.  An index outside the
list yields `none`, so that the comparison with `'1'` fails. -/
def readSequence (controlSequence : List Char) (periodCounter : Int) : Option Char :=
  if 0 ≤ periodCounter then controlSequence.get? periodCounter.toNat else none

/-- The function `controlOutput` of `app.c`; `now` is the reading of
`timeLog()`.  Only `periodCounter` is mutated, so the new `ControlStruct` and
the events are returned. -/
def controlOutput (appStruct : AppStruct) (controlStruct : ControlStruct) (now : Int) :
    ControlStruct × List Event :=
  if appStruct.updateTimer = true then
    let r1 : ControlStruct × List Event :=
      if controlStruct.periodCounter = controlStruct.numberOfPeriods then
        ({ controlStruct with periodCounter := controlStruct.periodCounter + 1 },
          logPrint false appStruct .noInputSequence)
      else (controlStruct, [])
    let r2 : ControlStruct × List Event :=
      if r1.1.periodCounter < r1.1.numberOfPeriods then
        let out1 :=
          if readSequence r1.1.controlSequence r1.1.periodCounter = some '1' then
            logPrint true appStruct .on
          else logPrint true appStruct .off
        let out2 :=
          if appStruct.debug = false then
            out1 ++ [{ msg := .newline, console := true, file := false }]
          else out1
        ({ r1.1 with periodCounter := r1.1.periodCounter + 1 }, r1.2 ++ out2)
      else r1
    (r2.1, r2.2 ++ logPrint false appStruct (.elapsed (now - appStruct.timeKeeper)))
  else (controlStruct, [])

/-! ## `main` -/

/-- The two structs that the loop of `main` owns. -/
structure Sys where
  app : AppStruct
  ctl : ControlStruct
  deriving DecidableEq, Repr

/-- State after one pass through the body of `while(1)`: still running, or
terminated through `terminateApp`. -/
inductive Outcome where
  | running (s : Sys)
  | exited (e : Exit)
  deriving DecidableEq, Repr

/-- The body of the `while(1)` loop of `main`: `txrx`, then `terminateApp` on a
non-zero result, else `controlOutput`.  Returns the events of the iteration. -/
def loopBody (s : Sys) (env : Tick) : Outcome × List Event :=
  let r := txrx s.app s.ctl env
  if r.ret < 0 then (.exited (terminateApp r.app EXIT_FAILURE), r.log)
  else if r.ret > 0 then (.exited (terminateApp r.app EXIT_SUCCESS), r.log)
  else
    let c := controlOutput r.app r.ctl env.tOut
    (.running { app := r.app, ctl := c.1 }, r.log ++ c.2)

/-- The loop of `main` run on the given iterations; it stops at the first
iteration that terminates the process.  Returns the final outcome and the
events of each executed iteration. -/
def runLoop (s : Sys) : List Tick → Outcome × List (List Event)
  | [] => (.running s, [])
  | env :: rest =>
    match loopBody s env with
    | (.exited e, log) => (.exited e, [log])
    | (.running s1, log) =>
      let r := runLoop s1 rest
      (r.1, log :: r.2)

/-- The values that `main` obtains before the loop: the settings written by
`getSettings` (`debug`, `cyclePeriod`, `logFile`), the `timeval` that
`setPeriod` computes from `cyclePeriod`, the result of `fopen` and the first
clock reading. -/
structure Startup where
  debug : Bool
  cyclePeriod : Rat
  logFile : String
  period : Timeval
  fopenResult : Option Nat
  t0 : Int
  deriving DecidableEq, Repr

/-- The state with which `main` enters `while(1)`: both structs zeroed by
`memset`, `periodCounter = 1`, `updateTimer = true`, then the settings, the
period, the clock reading, and the log file opened only when `debug`. -/
def mainInit (cfg : Startup) : Sys :=
  { app :=
      { dSet := false
        timeout := { tv_sec := 0, tv_usec := 0 }
        period := cfg.period
        timeKeeper := cfg.t0
        buffer := List.replicate MAX_BUFFER_LEN NUL
        updateTimer := true
        isCommand := false
        debug := cfg.debug
        logFile := cfg.logFile
        logPointer := if cfg.debug = true then cfg.fopenResult else none }
    ctl :=
      { cyclePeriod := cfg.cyclePeriod
        controlSequence := List.replicate MAX_BUFFER_LEN NUL
        numberOfPeriods := 0
        periodCounter := 1 } }

/-- A state is reachable when the loop of `main`, entered from `mainInit`,
is in it after some finite number of iterations. -/
def Reachable (s : Sys) : Prop :=
  ∃ (cfg : Startup) (ticks : List Tick), (runLoop (mainInit cfg) ticks).1 = .running s

/-! ## Vocabulary of the input protocol -/

/-- The line that a call of `txrx` reads: the characters before the first line
feed or byte 0xFF (or all of them when the input ends first). -/
def lineOf (stdin : List Char) : List Char :=
  stdin.takeWhile (fun c => ¬ (c = EOF_CHAR ∨ c = '\n'))

/-- The character is a sequence bit, `'0'` or `'1'`. -/
def isBit (c : Char) : Bool :=
  c = '0' ∨ c = '1'

/-! ## Vocabulary for statements about the output -/

/-- The actuation messages (`[ON]`, `[OFF]`) among the events, in order. -/
def actuations (log : List Event) : List Msg :=
  (log.map Event.msg).filter (fun m => m = .on ∨ m = .off)

/-- Number of `"No input sequence."` messages among the events. -/
def idleCount (log : List Event) : Nat :=
  log.countP (fun e => e.msg = .noInputSequence)

/-- Number of `"Warning: buffer full"` messages among the events. -/
def warnCount (log : List Event) : Nat :=
  log.countP (fun e => e.msg = .bufferFull)

/-- Number of `"Invalid control sequence received"` messages among the events. -/
def invalidCount (log : List Event) : Nat :=
  log.countP (fun e => e.msg = .invalidSequence)

/-- The actuation message that `controlOutput` emits for a stored character:
`[ON]` for `'1'`, `[OFF]` otherwise. -/
def bitMsg (c : Char) : Msg :=
  if c = '1' then .on else .off

/-- The struct with which the loop of `txrx` starts on a readable input. -/
def rxApp (appStruct : AppStruct) (left : Timeval) : AppStruct :=
  { armTimer appStruct with
    dSet := true, timeout := left
    buffer := List.replicate MAX_BUFFER_LEN NUL, isCommand := false }

/-- The characters of the line that can be stored. -/
def storedLine (stdin : List Char) : List Char :=
  (lineOf stdin).take (MAX_BUFFER_LEN - 1)

/-! ## Sample inputs and auxiliary predicates -/

/-- The state of `main` with the default settings and the log file open. -/
def sampleSys : Sys :=
  mainInit
    { debug := true, cyclePeriod := 5 / 2, logFile := "log.txt"
      period := { tv_sec := 2, tv_usec := 500000 }, fopenResult := some 3, t0 := 0 }

/-- An iteration in which `select` reports the given characters as readable. -/
def readyTick (stdin : List Char) : Tick :=
  { sel := .ready stdin, left := { tv_sec := 1, tv_usec := 0 }, tRx := 10, tOut := 11 }

/-- An iteration in which `select` times out. -/
def timeoutTick : Tick :=
  { sel := .timeout, left := { tv_sec := 0, tv_usec := 0 }, tRx := 10, tOut := 11 }

/-- One hundred `'0'` characters followed by an `'x'` and the line feed. -/
def longLine : List Char :=
  List.replicate 100 '0' ++ ['x', '\n']

/-- One hundred `'0'` characters and the line feed. -/
def fullLine : List Char :=
  List.replicate 100 '0' ++ ['\n']

/-- The bounds that hold for the `ControlStruct` in every state of the loop. -/
def CtlInv (c : ControlStruct) : Prop :=
  0 ≤ c.numberOfPeriods ∧ c.numberOfPeriods ≤ (MAX_BUFFER_LEN : Int) - 1 ∧
  0 ≤ c.periodCounter ∧ c.periodCounter ≤ c.numberOfPeriods + 1 ∧
  ∀ i : Nat, (i : Int) < c.numberOfPeriods →
    c.controlSequence.get? i = some '0' ∨ c.controlSequence.get? i = some '1'

/-- The state of `main` after the line `10` has been committed and played. -/
def sampleAfter : Sys :=
  match (runLoop sampleSys [readyTick ['1', '0', '\n'], timeoutTick, timeoutTick]).1 with
  | .running s => s
  | .exited _ => sampleSys

/-- The bounds on the two counters of the `ControlStruct`. -/
def CtlBounds (c : ControlStruct) : Prop :=
  0 ≤ c.numberOfPeriods ∧ c.numberOfPeriods ≤ (MAX_BUFFER_LEN : Int) - 1 ∧
  0 ≤ c.periodCounter ∧ c.periodCounter ≤ c.numberOfPeriods + 1

/-- An event written to the log file was also written to the console. -/
def Gated (e : Event) : Prop :=
  e.file = true → e.console = true

/-- The Cycle Driver as the specification words it (section 4.5), for comparison with
`controlOutput`.  It acts only when the boundary is reached (`updateTimer`).  Step 1: if the
cursor equals the length, log the idle message and set the cursor to length + 1.  Step 2:
else if the cursor is below the length, read the bit at the cursor, emit the always-visible
actuation (`[ON]` for `1`, `[OFF]` for `0`), add the line break when not in debug mode, and
increment the cursor.  Step 3: in every case log the elapsed time. -/
def cycleDriverSpec (appStruct : AppStruct) (controlStruct : ControlStruct) (now : Int) :
    ControlStruct × List Event :=
  if appStruct.updateTimer = true then
    let r : ControlStruct × List Event :=
      if controlStruct.periodCounter = controlStruct.numberOfPeriods then
        ({ controlStruct with periodCounter := controlStruct.numberOfPeriods + 1 },
          logPrint false appStruct .noInputSequence)
      else if controlStruct.periodCounter < controlStruct.numberOfPeriods then
        let bit := readSequence controlStruct.controlSequence controlStruct.periodCounter
        let act :=
          if bit = some '1' then logPrint true appStruct .on
          else if bit = some '0' then logPrint true appStruct .off
          else []
        let out :=
          if appStruct.debug = false then
            act ++ [{ msg := .newline, console := true, file := false }]
          else act
        ({ controlStruct with periodCounter := controlStruct.periodCounter + 1 }, out)
      else (controlStruct, [])
    (r.1, r.2 ++ logPrint false appStruct (.elapsed (now - appStruct.timeKeeper)))
  else (controlStruct, [])

/-- Constant `MAX_PERIOD_S` of getSettings.h. -/
def MAX_PERIOD_S : Rat := 3600

/-- Constant `DEFAULT_PERIOD_S` of getSettings.h (`2.5f`). -/
def DEFAULT_PERIOD_S : Rat := 5 / 2

/-- Constant `DEFAULT_DEBUG` of getSettings.h. -/
def DEFAULT_DEBUG : Bool := true

/-- Constant `DEFAULT_LOG_NAME` of getSettings.h. -/
def DEFAULT_LOG_NAME : String := "log.txt"

/-- What one call of `getopt(argc, argv, "hd:t:l:")` delivers before it returns -1: the
option character together with `optarg`.  For `-t` the option carries the number that
`(float)atof(optarg)` yields, as an exact rational; `unknown` is the character `'?'`, and
`other` stands for any character outside the `switch` cases. -/
inductive GetoptResult where
  | h
  | d (optarg : List Char)
  | t (value : Rat)
  | l (optarg : String)
  | unknown
  | other
  deriving DecidableEq, Repr

/-- The values behind the pointers of the C `SettingStruct`. -/
structure SettingStruct where
  debug : Bool
  logFile : String
  cyclePeriod : Rat
  deriving DecidableEq, Repr

/-- The texts that `getSettings` prints: the help text, the three error messages, and the
hint `"Use -h for help"`. -/
inductive SettingsMsg where
  | help
  | invalidDebug
  | invalidPeriod
  | invalidLogName
  | useHelp
  deriving DecidableEq, Repr

/-- What `getSettings` yields: the returned `int`, the settings, and the texts printed. -/
structure SettingsResult where
  ret : Int
  settings : SettingStruct
  printed : List SettingsMsg
  deriving DecidableEq, Repr

/-- The function `checkFileName` of getSettings.c (a stub that accepts every name). -/
def checkFileName (_fileName : String) : Bool :=
  true

/-- The `while ((optRes = getopt(...)) != -1) switch (optRes)` loop of `getSettings` with the
code that follows it, on the options that `getopt` delivers. -/
def getSettingsLoop (numOfArgs : Nat) : List GetoptResult → SettingStruct → SettingsResult
  | [], st =>
    { ret := 0, settings := st
      printed := if st.debug = true ∧ numOfArgs = 1 then [.useHelp] else [] }
  | .h :: _, st => { ret := 1, settings := st, printed := [.help] }
  | .d optarg :: rest, st =>
    if optarg.head? = some '0' then getSettingsLoop numOfArgs rest { st with debug := false }
    else if optarg.head? = some '1' then getSettingsLoop numOfArgs rest { st with debug := true }
    else { ret := -1, settings := st, printed := [.invalidDebug] }
  | .t cyclePeriod :: rest, st =>
    if cyclePeriod > 0 ∧ cyclePeriod < MAX_PERIOD_S then
      getSettingsLoop numOfArgs rest { st with cyclePeriod := cyclePeriod }
    else { ret := -1, settings := st, printed := [.invalidPeriod] }
  | .l optarg :: rest, st =>
    if checkFileName optarg = true then
      getSettingsLoop numOfArgs rest { st with logFile := optarg }
    else { ret := -1, settings := st, printed := [.invalidLogName] }
  | .unknown :: rest, st => getSettingsLoop numOfArgs rest st
  | .other :: _, st => { ret := 0, settings := st, printed := [] }

/-- The function `getSettings` of getSettings.c: the defaults are stored, then the options
are processed. -/
def getSettings (argc : Nat) (opts : List GetoptResult) : SettingsResult :=
  getSettingsLoop argc opts
    { debug := DEFAULT_DEBUG, logFile := DEFAULT_LOG_NAME, cyclePeriod := DEFAULT_PERIOD_S }

/-- The C library function `round` on an exact number: to the nearest integer, halves away
from zero. -/
def cRound (x : Rat) : Int :=
  if 0 ≤ x then ⌊x + 1 / 2⌋ else -⌊-x + 1 / 2⌋

/-- Rounding to the nearest integer, ties to the even one (the rounding of IEEE
arithmetic). -/
def roundHalfEven (x : Rat) : Int :=
  if x - ⌊x⌋ < 1 / 2 then ⌊x⌋
  else if 1 / 2 < x - ⌊x⌋ then ⌊x⌋ + 1
  else if ⌊x⌋ % 2 = 0 then ⌊x⌋ else ⌊x⌋ + 1

/-- The `float` (IEEE binary32, round to nearest) that a real result is rounded to: 24
significant bits, the exponent not below -126.  Magnitudes from 2^128 on, which overflow, do
not occur in this program. -/
def toFloat (x : Rat) : Rat :=
  if x = 0 then 0
  else
    roundHalfEven (x / 2 ^ (max (Int.log 2 |x|) (-126) - 23))
      * 2 ^ (max (Int.log 2 |x|) (-126) - 23)

/-- The function `setPeriod` of `app.c`:
`tv_sec = (long)floor(period); tv_usec = ((long)(round(period*10)))%10 * 100000;`
The argument is the value of the `float`; the product `period*10` is computed in `float`
and so rounded by `toFloat` before `round` sees it.  The C operator `%` truncates
(`Int.tmod`). -/
def setPeriod (period : Rat) : Timeval :=
  { tv_sec := ⌊period⌋
    tv_usec := Int.tmod (cRound (toFloat (period * 10))) 10 * 100000 }

/-- The `AppStruct` of `main` when `getSettings` has returned: zeroed by `memset`,
`updateTimer = true`, and `debug` as written by `getSettings`. -/
def preApp (debug : Bool) : AppStruct :=
  { dSet := false
    timeout := { tv_sec := 0, tv_usec := 0 }
    period := { tv_sec := 0, tv_usec := 0 }
    timeKeeper := 0
    buffer := List.replicate MAX_BUFFER_LEN NUL
    updateTimer := true
    isCommand := false
    debug := debug
    logFile := ""
    logPointer := none }

/-- The values with which `main` enters the loop when `getSettings` has returned the given
result. -/
def startupOf (r : SettingsResult) (fopenResult : Option Nat) (t0 : Int) : Startup :=
  { debug := r.settings.debug
    cyclePeriod := r.settings.cyclePeriod
    logFile := r.settings.logFile
    period := setPeriod r.settings.cyclePeriod
    fopenResult := fopenResult
    t0 := t0 }

/-- The part of `main` before `while(1)`: `getSettings`, then `terminateApp` with
`EXIT_FAILURE` on a negative result and with `EXIT_SUCCESS` on a positive one, else the
initial state of the loop. -/
def mainStartup (argc : Nat) (opts : List GetoptResult) (fopenResult : Option Nat) (t0 : Int) :
    Outcome :=
  let getSettingsRes := getSettings argc opts
  if getSettingsRes.ret < 0 then
    .exited (terminateApp (preApp getSettingsRes.settings.debug) EXIT_FAILURE)
  else if getSettingsRes.ret > 0 then
    .exited (terminateApp (preApp getSettingsRes.settings.debug) EXIT_SUCCESS)
  else .running (mainInit (startupOf getSettingsRes fopenResult t0))

/-- The function `main` of `app.c` on the options delivered by `getopt` and the iterations
supplied by the environment. -/
def main (argc : Nat) (opts : List GetoptResult) (fopenResult : Option Nat) (t0 : Int)
    (ticks : List Tick) : Outcome × List (List Event) :=
  match mainStartup argc opts fopenResult t0 with
  | .exited e => (.exited e, [])
  | .running s => runLoop s ticks

/-- The duration of a `timeval` in seconds. -/
def duration (tv : Timeval) : Rat :=
  tv.tv_sec + tv.tv_usec / 1000000

/-- The number rounded to the nearest tenth (halves away from zero). -/
def roundTenth (p : Rat) : Rat :=
  cRound (p * 10) / 10

/-- An access outside an array of `MAX_BUFFER_LEN` bytes: the store `buffer[count] = temp`,
the write `buffer[count] = '\n'`, the `memcpy` of `count` bytes, the read of `buffer` as a
string by `"%s"` (which needs a NUL inside the array), and the read
`controlSequence[periodCounter]`. -/
inductive Fault where
  | store
  | terminator
  | copy
  | stringRead
  | sequenceRead
  deriving DecidableEq, Repr

/-- The loop of `txrx` as in `scanLine`, with the index of the store `buffer[count] = temp`
checked against the size of the array. -/
def scanLineChecked : List Char → ScanState → Except Fault ScanResult
  | [], st => .ok (.endOfLine st)
  | temp :: rest, st =>
    if temp = EOF_CHAR ∨ temp = '\n' then .ok (.endOfLine st)
    else if temp = 'q' ∧ st.count = 0 then
      .ok (.quit { st with log := st.log ++ logPrint false st.app .quitApplication })
    else
      let st1 : ScanState :=
        if temp = 'd' ∧ st.count = 0 then
          { st with app := { st.app with debug := !st.app.debug, isCommand := true } }
        else st
      if st1.isValid = true ∧ st1.count < MAX_BUFFER_LEN - 1 then
        if st1.count < MAX_BUFFER_LEN then
          let app1 := { st1.app with buffer := st1.app.buffer.set st1.count temp }
          let count1 := st1.count + 1
          let isValid1 := if temp ≠ '0' ∧ temp ≠ '1' then false else st1.isValid
          let log1 :=
            if count1 = MAX_BUFFER_LEN - 1 then st1.log ++ logPrint false app1 .bufferFull
            else st1.log
          scanLineChecked rest { app := app1, count := count1, isValid := isValid1, log := log1 }
        else .error .store
      else scanLineChecked rest st1

/-- The function `txrx` as in `txrx`, with every array access checked against the size
`MAX_BUFFER_LEN` of the arrays `buffer` and `controlSequence`. -/
def txrxChecked (appStruct : AppStruct) (controlStruct : ControlStruct) (env : Tick) :
    Except Fault TxrxResult :=
  let app0 := armTimer appStruct
  match env.sel with
  | .error =>
    .ok { ret := -1, app := app0, ctl := controlStruct, log := logPrint false app0 .error1 }
  | .timeout =>
    let app1 := { app0 with dSet := false, timeout := env.left }
    .ok { ret := 0, app := { app1 with updateTimer := true }, ctl := controlStruct, log := [] }
  | .ready stdin =>
    let app1 := { app0 with dSet := true, timeout := env.left }
    let app2 := { app1 with buffer := List.replicate MAX_BUFFER_LEN NUL, isCommand := false }
    match scanLineChecked stdin { app := app2, count := 0, isValid := true, log := [] } with
    | .error f => .error f
    | .ok (.quit st) => .ok { ret := 1, app := st.app, ctl := controlStruct, log := st.log }
    | .ok (.endOfLine st) =>
      if st.count < MAX_BUFFER_LEN then
        let app3 := { st.app with buffer := st.app.buffer.set st.count '\n' }
        if st.isValid = true then
          if app3.debug = true ∧ NUL ∉ app3.buffer then .error .stringRead
          else if st.count ≤ MAX_BUFFER_LEN then
            let log1 :=
              if app3.debug = true then
                st.log ++ logPrint false app3 .newControlSequence
                  ++ logPrint false app3 (.echo (cString app3.buffer))
              else st.log
            let ctl1 := { controlStruct with
              controlSequence :=
                app3.buffer.take st.count ++ (List.replicate MAX_BUFFER_LEN NUL).drop st.count
              periodCounter := 0
              numberOfPeriods := st.count }
            let app4 := { app3 with timeKeeper := env.tRx }
            .ok { ret := 0, app := { app4 with updateTimer := true }, ctl := ctl1, log := log1 }
          else .error .copy
        else
          let log1 :=
            if app3.isCommand = false then st.log ++ logPrint false app3 .invalidSequence
            else st.log
          .ok { ret := 0, app := { app3 with updateTimer := false }, ctl := controlStruct
                log := log1 }
      else .error .terminator

/-- The function `controlOutput` as in `controlOutput`, with the index of the read
`controlSequence[periodCounter]` checked against the size of the array. -/
def controlOutputChecked (appStruct : AppStruct) (controlStruct : ControlStruct) (now : Int) :
    Except Fault (ControlStruct × List Event) :=
  if appStruct.updateTimer = true then
    let r1 : ControlStruct × List Event :=
      if controlStruct.periodCounter = controlStruct.numberOfPeriods then
        ({ controlStruct with periodCounter := controlStruct.periodCounter + 1 },
          logPrint false appStruct .noInputSequence)
      else (controlStruct, [])
    if r1.1.periodCounter < r1.1.numberOfPeriods then
      if 0 ≤ r1.1.periodCounter ∧ r1.1.periodCounter < (MAX_BUFFER_LEN : Int) then
        let out1 :=
          if readSequence r1.1.controlSequence r1.1.periodCounter = some '1' then
            logPrint true appStruct .on
          else logPrint true appStruct .off
        let out2 :=
          if appStruct.debug = false then
            out1 ++ [{ msg := .newline, console := true, file := false }]
          else out1
        .ok ({ r1.1 with periodCounter := r1.1.periodCounter + 1 },
          r1.2 ++ out2 ++ logPrint false appStruct (.elapsed (now - appStruct.timeKeeper)))
      else .error .sequenceRead
    else .ok (r1.1, r1.2 ++ logPrint false appStruct (.elapsed (now - appStruct.timeKeeper)))
  else .ok (controlStruct, [])

/-- The input on which the `"%s"` read of `txrx` finds no NUL in `buffer`: a readable line
that is committed with `MAX_BUFFER_LEN-1` stored characters while `debug` is on. -/
def echoOverrun (appStruct : AppStruct) (env : Tick) : Bool :=
  match env.sel with
  | .ready stdin =>
    appStruct.debug && (storedLine stdin).all isBit
      && decide ((storedLine stdin).length = MAX_BUFFER_LEN - 1)
  | _ => false

/-- The actuation events (`[ON]`, `[OFF]`) among the events, in order, each with the sinks it
was written to. -/
def actuationEvents (log : List Event) : List Event :=
  log.filter (fun e => e.msg = .on ∨ e.msg = .off)

/-- The `"No input sequence."` events among the events, each with the sinks it was written
to. -/
def idleEvents (log : List Event) : List Event :=
  log.filter (fun e => e.msg = .noInputSequence)

/-- The iteration reads a line whose first character is `d`, the command at which `txrx`
executes `debug = !debug`. -/
def togglesDebug (t : Tick) : Bool :=
  match t.sel with
  | .ready stdin => (lineOf stdin).head? = some 'd'
  | _ => false

/-- The flag `debug` after the given iterations, from its value before them. -/
def debugAfter (debug : Bool) (ticks : List Tick) : Bool :=
  ticks.foldl (fun d t => if togglesDebug t = true then !d else d) debug

/-! # Lemmas -/

/-! ## The loop of `txrx` -/

theorem lineOf_cons_of_end (c : Char) (cs : List Char) (hc : c = EOF_CHAR ∨ c = '\n') :
    lineOf (c :: cs) = [] := by
  rcases hc with h | h <;> simp [lineOf, h]

theorem lineOf_cons_of_not_end (c : Char) (cs : List Char) (hc : ¬ (c = EOF_CHAR ∨ c = '\n')) :
    lineOf (c :: cs) = c :: lineOf cs := by
  have h1 : c ≠ EOF_CHAR := fun h => hc (Or.inl h)
  have h2 : c ≠ '\n' := fun h => hc (Or.inr h)
  simp [lineOf, h1, h2]

theorem scanLine_lineOf (stdin : List Char) (st : ScanState) :
    scanLine stdin st = scanLine (lineOf stdin) st := by
  induction stdin generalizing st with
  | nil => rfl
  | cons c cs ih =>
    by_cases hc : c = EOF_CHAR ∨ c = '\n'
    · rw [lineOf_cons_of_end c cs hc]
      simp [scanLine, hc]
    · have hl : lineOf (c :: cs) = c :: lineOf cs := lineOf_cons_of_not_end c cs hc
      rw [hl]
      simp only [scanLine, hc, if_false]
      split_ifs <;> first | rfl | exact ih _

theorem scanLine_stuck (cs : List Char) (st : ScanState) (h1 : 1 ≤ st.count)
    (h2 : st.isValid = false ∨ MAX_BUFFER_LEN - 1 ≤ st.count) :
    scanLine cs st = .endOfLine st := by
  induction cs with
  | nil => rfl
  | cons c cs ih =>
    have h0 : st.count ≠ 0 := by omega
    have h3 : ¬ (st.isValid = true ∧ st.count < MAX_BUFFER_LEN - 1) := by
      rintro ⟨hv, hlt⟩
      rcases h2 with h2 | h2
      · simp [hv] at h2
      · omega
    by_cases hc : c = EOF_CHAR ∨ c = '\n'
    · simp [scanLine, hc]
    · simp only [scanLine, hc, h0, h3, and_false, if_false]
      exact ih

theorem scanLine_take (cs : List Char) (st : ScanState) (hc : st.count ≤ MAX_BUFFER_LEN - 1)
    (hv : st.isValid = false → 1 ≤ st.count) :
    scanLine cs st = scanLine (cs.take (MAX_BUFFER_LEN - 1 - st.count)) st := by
  induction cs generalizing st with
  | nil => simp
  | cons c cs ih =>
    by_cases hs : 1 ≤ st.count ∧ (st.isValid = false ∨ MAX_BUFFER_LEN - 1 ≤ st.count)
    · rw [scanLine_stuck _ _ hs.1 hs.2, scanLine_stuck _ _ hs.1 hs.2]
    · have hval : st.isValid = true := by
        cases h : st.isValid with
        | true => rfl
        | false => exact absurd ⟨hv h, Or.inl h⟩ hs
      have hlt : st.count < MAX_BUFFER_LEN - 1 := by
        by_contra hge
        have hge2 : MAX_BUFFER_LEN - 1 ≤ st.count := by omega
        have : 1 ≤ st.count := by simp [MAX_BUFFER_LEN] at hge2; omega
        exact hs ⟨this, Or.inr hge2⟩
      obtain ⟨n, hn⟩ : ∃ n, MAX_BUFFER_LEN - 1 - st.count = n + 1 :=
        ⟨MAX_BUFFER_LEN - 1 - st.count - 1, by omega⟩
      rw [hn, List.take_succ_cons]
      simp only [scanLine]
      by_cases hnl : c = EOF_CHAR ∨ c = '\n'
      · simp [hnl]
      · simp only [hnl, if_false]
        by_cases hq : c = 'q' ∧ st.count = 0
        · simp [hq]
        · simp only [hq, if_false]
          by_cases hd : c = 'd' ∧ st.count = 0
          · have hd1 : (c = 'd' ∧ st.count = 0) = True := eq_true hd
            simp only [hd1, if_true, hval, hlt, and_self]
            rw [ih]
            · simp only []
              have : MAX_BUFFER_LEN - 1 - (st.count + 1) = n := by omega
              rw [this]
            · simp only []; omega
            · intro _; simp only []; omega
          · simp only [hd, if_false, hval, hlt, and_self, if_true]
            rw [ih]
            · simp only []
              have : MAX_BUFFER_LEN - 1 - (st.count + 1) = n := by omega
              rw [this]
            · simp only []; omega
            · intro _; simp only []; omega

theorem set_zeros (pre : List Char) (n : Nat) (c : Char) :
    (pre ++ List.replicate (n + 1) NUL).set pre.length c = pre ++ c :: List.replicate n NUL := by
  simp [List.replicate_succ]

theorem isBit_iff (c : Char) : isBit c = true ↔ (c = '0' ∨ c = '1') := by
  simp [isBit]

theorem isBit_false_iff (c : Char) : isBit c = false ↔ (c ≠ '0' ∧ c ≠ '1') := by
  simp [isBit]

/-- One pass through the loop body on a bit. -/
theorem scanLine_cons_bit (c : Char) (cs : List Char) (st : ScanState) (hb : isBit c = true)
    (hv : st.isValid = true) (hlt : st.count < MAX_BUFFER_LEN - 1) :
    scanLine (c :: cs) st = scanLine cs
      { app := { st.app with buffer := st.app.buffer.set st.count c }
        count := st.count + 1
        isValid := true
        log := if st.count + 1 = MAX_BUFFER_LEN - 1 then
            st.log ++ logPrint false st.app .bufferFull else st.log } := by
  have h1 : ¬ (c = EOF_CHAR ∨ c = '\n') := by
    rcases (isBit_iff c).1 hb with h | h <;> rw [h] <;> decide
  have h2 : c ≠ 'q' := by rcases (isBit_iff c).1 hb with h | h <;> simp [h]
  have h3 : c ≠ 'd' := by rcases (isBit_iff c).1 hb with h | h <;> simp [h]
  have h4 : ¬ (c ≠ '0' ∧ c ≠ '1') := by rcases (isBit_iff c).1 hb with h | h <;> simp [h]
  simp only [scanLine, h1, h2, h3, h4, hv, hlt, false_and, and_self, if_true, if_false, logPrint]

theorem scanLine_bits (cs : List Char) (st : ScanState) (pre : List Char)
    (hb : ∀ c ∈ cs, isBit c = true) (hv : st.isValid = true)
    (hbuf : st.app.buffer = pre ++ List.replicate (MAX_BUFFER_LEN - pre.length) NUL)
    (hcnt : st.count = pre.length) (hlen : pre.length + cs.length ≤ MAX_BUFFER_LEN - 1) :
    scanLine cs st = .endOfLine
      { app := { st.app with
          buffer := (pre ++ cs) ++ List.replicate (MAX_BUFFER_LEN - (pre ++ cs).length) NUL }
        count := (pre ++ cs).length
        isValid := true
        log := st.log ++
          if cs ≠ [] ∧ (pre ++ cs).length = MAX_BUFFER_LEN - 1 then
            logPrint false st.app .bufferFull else [] } := by
  induction cs generalizing st pre with
  | nil =>
    cases st with
    | mk app count isValid log =>
      cases app
      simp_all [scanLine]
  | cons c cs ih =>
    have hc : isBit c = true := hb c (List.mem_cons_self _ _)
    have hcs : ∀ x ∈ cs, isBit x = true := fun x hx => hb x (List.mem_cons_of_mem _ hx)
    simp only [List.length_cons] at hlen
    rw [scanLine_cons_bit c cs st hc hv (by omega)]
    obtain ⟨n, hn⟩ : ∃ n, MAX_BUFFER_LEN - pre.length = n + 1 :=
      ⟨MAX_BUFFER_LEN - pre.length - 1, by simp only [MAX_BUFFER_LEN] at hlen ⊢; omega⟩
    rw [ih _ (pre ++ [c]) hcs rfl]
    · have e1 : pre ++ [c] ++ cs = pre ++ c :: cs := by simp
      simp only [e1, logPrint]
      congr 2
      by_cases h100 : st.count + 1 = MAX_BUFFER_LEN - 1
      · have hnil : cs = [] := by
          apply List.eq_nil_of_length_eq_zero
          omega
        subst hnil
        simp [h100, hcnt ▸ h100]
      · by_cases hnil : cs = []
        · subst hnil
          have : ¬ (pre.length + 1 = MAX_BUFFER_LEN - 1) := by omega
          simp [h100, this]
        · simp [h100, hnil]
    · simp only [hbuf, hcnt, hn, set_zeros]
      have : MAX_BUFFER_LEN - (pre ++ [c]).length = n := by
        simp only [List.length_append, List.length_singleton]; omega
      rw [this]; simp
    · simp [hcnt]
    · simp only [List.length_append, List.length_singleton]; omega

theorem scanLine_append (a b : List Char) (st : ScanState)
    (ha : ∀ c ∈ a, ¬ (c = EOF_CHAR ∨ c = '\n')) :
    scanLine (a ++ b) st =
      match scanLine a st with
      | .quit s => .quit s
      | .endOfLine s => scanLine b s := by
  induction a generalizing st with
  | nil => simp [scanLine]
  | cons c cs ih =>
    have hc : ¬ (c = EOF_CHAR ∨ c = '\n') := ha c (List.mem_cons_self _ _)
    have hcs : ∀ x ∈ cs, ¬ (x = EOF_CHAR ∨ x = '\n') :=
      fun x hx => ha x (List.mem_cons_of_mem _ hx)
    simp only [List.cons_append, scanLine, hc, if_false]
    split_ifs <;> first | rfl | exact ih _ hcs


theorem storedLine_length (stdin : List Char) : (storedLine stdin).length ≤ MAX_BUFFER_LEN - 1 := by
  simp [storedLine, List.length_take]

theorem storedLine_ne_newline (stdin : List Char) :
    ∀ c ∈ storedLine stdin, ¬ (c = EOF_CHAR ∨ c = '\n') := by
  intro c hc
  have h1 : c ∈ lineOf stdin := List.mem_of_mem_take hc
  have h2 := List.mem_takeWhile_imp h1
  simpa using h2

theorem lineOf_eq_self_iff (l : List Char) :
    lineOf l = l ↔ ∀ c ∈ l, ¬ (c = EOF_CHAR ∨ c = '\n') := by
  simp only [lineOf]
  rw [List.takeWhile_eq_self_iff]
  constructor
  · intro h c hc
    simpa using h c hc
  · intro h c hc
    simpa using h c hc

theorem scanLine_storedLine (stdin : List Char) (app : AppStruct) :
    scanLine stdin { app := app, count := 0, isValid := true, log := [] }
      = scanLine (storedLine stdin) { app := app, count := 0, isValid := true, log := [] } := by
  rw [scanLine_lineOf, scanLine_take _ _ (by simp) (by simp)]
  rfl

theorem scanLine_cons_nonbit (x : Char) (r : List Char) (st : ScanState) (hx : isBit x = false)
    (hnl : ¬ (x = EOF_CHAR ∨ x = '\n')) (hq : ¬ (x = 'q' ∧ st.count = 0))
    (hv : st.isValid = true)
    (hlt : st.count < MAX_BUFFER_LEN - 1) :
    scanLine (x :: r) st = .endOfLine
      { app := { st.app with
          debug := if x = 'd' ∧ st.count = 0 then !st.app.debug else st.app.debug
          isCommand := if x = 'd' ∧ st.count = 0 then true else st.app.isCommand
          buffer := st.app.buffer.set st.count x }
        count := st.count + 1
        isValid := false
        log := if st.count + 1 = MAX_BUFFER_LEN - 1 then
            st.log ++ logPrint false
              { st.app with
                debug := if x = 'd' ∧ st.count = 0 then !st.app.debug else st.app.debug }
              .bufferFull
          else st.log } := by
  have h4 : (x ≠ '0' ∧ x ≠ '1') := (isBit_false_iff x).1 hx
  have key : scanLine (x :: r) st = scanLine r
      { app := { st.app with
          debug := if x = 'd' ∧ st.count = 0 then !st.app.debug else st.app.debug
          isCommand := if x = 'd' ∧ st.count = 0 then true else st.app.isCommand
          buffer := st.app.buffer.set st.count x }
        count := st.count + 1
        isValid := false
        log := if st.count + 1 = MAX_BUFFER_LEN - 1 then
            st.log ++ logPrint false
              { st.app with
                debug := if x = 'd' ∧ st.count = 0 then !st.app.debug else st.app.debug }
              .bufferFull
          else st.log } := by
    by_cases hd : x = 'd' ∧ st.count = 0
    · have hd1 : (x = 'd' ∧ st.count = 0) = True := eq_true hd
      simp only [scanLine, hnl, hq, hd1, h4, hv, hlt, and_self, if_true, if_false, logPrint, ne_eq,
        not_false_eq_true]
    · simp only [scanLine, hnl, hq, hd, h4, hv, hlt, and_self, if_true, if_false, logPrint, ne_eq,
        not_false_eq_true]
  rw [key]
  exact scanLine_stuck _ _ (by simp) (Or.inl rfl)

/-- Every list of characters is all bits, or has a first character that is
not a bit. -/
theorem bits_or_split (l : List Char) :
    (∀ c ∈ l, isBit c = true) ∨
      ∃ b x r, l = b ++ x :: r ∧ (∀ c ∈ b, isBit c = true) ∧ isBit x = false := by
  induction l with
  | nil => left; simp
  | cons c cs ih =>
    cases hc : isBit c with
    | false => right; exact ⟨[], c, cs, rfl, by simp, hc⟩
    | true =>
      rcases ih with h | ⟨b, x, r, he, hb, hx⟩
      · left
        intro y hy
        rcases List.mem_cons.1 hy with h1 | h1
        · rw [h1]; exact hc
        · exact h y h1
      · right
        refine ⟨c :: b, x, r, by simp [he], ?_, hx⟩
        intro y hy
        rcases List.mem_cons.1 hy with h1 | h1
        · rw [h1]; exact hc
        · exact hb y h1

/-- Closed form of the loop on a line whose stored part consists of bits. -/
theorem scan_valid (stdin : List Char) (app : AppStruct)
    (hbuf : app.buffer = List.replicate MAX_BUFFER_LEN NUL)
    (hb : ∀ c ∈ storedLine stdin, isBit c = true) :
    scanLine stdin { app := app, count := 0, isValid := true, log := [] } = .endOfLine
      { app := { app with
          buffer := storedLine stdin
            ++ List.replicate (MAX_BUFFER_LEN - (storedLine stdin).length) NUL }
        count := (storedLine stdin).length
        isValid := true
        log := if (storedLine stdin).length = MAX_BUFFER_LEN - 1 then
            logPrint false app .bufferFull else [] } := by
  rw [scanLine_storedLine]
  have hl := storedLine_length stdin
  rw [scanLine_bits (storedLine stdin) _ [] hb rfl (by simpa using hbuf) rfl (by simpa using hl)]
  by_cases hnil : storedLine stdin = []
  · simp [hnil, MAX_BUFFER_LEN]
  · simp [hnil]

/-- Closed form of the loop on a line whose first character is `q`. -/
theorem scan_quit (stdin : List Char) (app : AppStruct) (hq : (lineOf stdin).head? = some 'q') :
    scanLine stdin { app := app, count := 0, isValid := true, log := [] } = .quit
      { app := app, count := 0, isValid := true, log := logPrint false app .quitApplication } := by
  cases stdin with
  | nil => simp [lineOf] at hq
  | cons c cs =>
    by_cases hc : c = EOF_CHAR ∨ c = '\n'
    · rw [lineOf_cons_of_end c cs hc] at hq
      simp at hq
    · rw [lineOf_cons_of_not_end c cs hc] at hq
      have : c = 'q' := by simpa using hq
      subst this
      have hne : ¬ ('q' = EOF_CHAR ∨ 'q' = '\n') := by decide
      simp only [scanLine, hne, if_false]
      simp

/-- Closed form of the loop on a line whose stored part has a first non-bit
character `x` that does not quit. -/
theorem scan_reject (stdin : List Char) (app : AppStruct) (b r : List Char) (x : Char)
    (hbuf : app.buffer = List.replicate MAX_BUFFER_LEN NUL)
    (hs : storedLine stdin = b ++ x :: r) (hb : ∀ c ∈ b, isBit c = true)
    (hx : isBit x = false) (hq : ¬ (b = [] ∧ x = 'q')) :
    scanLine stdin { app := app, count := 0, isValid := true, log := [] } = .endOfLine
      { app := { app with
          debug := if x = 'd' ∧ b = [] then !app.debug else app.debug
          isCommand := if x = 'd' ∧ b = [] then true else app.isCommand
          buffer := b ++ x :: List.replicate (MAX_BUFFER_LEN - 1 - b.length) NUL }
        count := b.length + 1
        isValid := false
        log := if b.length + 1 = MAX_BUFFER_LEN - 1 then
            logPrint false app .bufferFull else [] } := by
  have hl := storedLine_length stdin
  have hnl := storedLine_ne_newline stdin
  rw [hs] at hl hnl
  simp only [List.length_append, List.length_cons] at hl
  have hbnl : ∀ c ∈ b, ¬ (c = EOF_CHAR ∨ c = '\n') := fun c hc => hnl c (by simp [hc])
  have hxnl : ¬ (x = EOF_CHAR ∨ x = '\n') := hnl x (by simp)
  rw [scanLine_storedLine, hs, scanLine_append _ _ _ hbnl,
    scanLine_bits b _ [] hb rfl (by simpa using hbuf) rfl (by simp only [List.length_nil]; omega)]
  simp only [List.nil_append]
  have hq2 : ¬ (x = 'q' ∧ b.length = 0) := by
    rintro ⟨h1, h2⟩
    exact hq ⟨List.eq_nil_of_length_eq_zero h2, h1⟩
  rw [scanLine_cons_nonbit x r _ hx hxnl hq2 rfl (by simp only []; omega)]
  obtain ⟨n, hn⟩ : ∃ n, MAX_BUFFER_LEN - b.length = n + 1 :=
    ⟨MAX_BUFFER_LEN - b.length - 1, by simp only [MAX_BUFFER_LEN] at hl ⊢; omega⟩
  have hn2 : MAX_BUFFER_LEN - 1 - b.length = n := by omega
  have hb100 : ¬ (b.length = MAX_BUFFER_LEN - 1) := by omega
  have hnil : (b.length = 0) = (b = []) := by
    apply propext
    exact ⟨List.eq_nil_of_length_eq_zero, fun h => by simp [h]⟩
  simp only [hn, hn2, set_zeros, hb100, and_false, if_false, List.append_nil, hnil, logPrint]
  congr 2
  split_ifs with h1 h2
  · exfalso
    rw [h2.2] at h1
    simp [MAX_BUFFER_LEN] at h1
  · rfl
  · rfl


/-! ## Closed forms of `txrx` -/

theorem txrx_ready (app : AppStruct) (ctl : ControlStruct) (stdin : List Char) (left : Timeval)
    (tRx tOut : Int) :
    txrx app ctl { sel := .ready stdin, left := left, tRx := tRx, tOut := tOut } =
      match scanLine stdin { app := rxApp app left, count := 0, isValid := true, log := [] } with
      | .quit st => { ret := 1, app := st.app, ctl := ctl, log := st.log }
      | .endOfLine st =>
        let app3 := { st.app with buffer := st.app.buffer.set st.count '\n' }
        if st.isValid = true then
          { ret := 0
            app := { app3 with timeKeeper := tRx, updateTimer := true }
            ctl := { ctl with
              controlSequence :=
                app3.buffer.take st.count ++ (List.replicate MAX_BUFFER_LEN NUL).drop st.count
              periodCounter := 0
              numberOfPeriods := st.count }
            log :=
              if app3.debug = true then
                st.log ++ logPrint false app3 .newControlSequence
                  ++ logPrint false app3 (.echo (cString app3.buffer))
              else st.log }
        else
          { ret := 0, app := { app3 with updateTimer := false }, ctl := ctl
            log :=
              if app3.isCommand = false then st.log ++ logPrint false app3 .invalidSequence
              else st.log } := rfl

theorem rxApp_buffer (app : AppStruct) (left : Timeval) :
    (rxApp app left).buffer = List.replicate MAX_BUFFER_LEN NUL := rfl

theorem rxApp_debug (app : AppStruct) (left : Timeval) : (rxApp app left).debug = app.debug := by
  simp only [rxApp, armTimer]; split_ifs <;> rfl

theorem rxApp_logPointer (app : AppStruct) (left : Timeval) :
    (rxApp app left).logPointer = app.logPointer := by
  simp only [rxApp, armTimer]; split_ifs <;> rfl

theorem rxApp_isCommand (app : AppStruct) (left : Timeval) :
    (rxApp app left).isCommand = false := rfl

/-- A line whose first character is `q`: `txrx` returns 1 from inside the
loop. -/
theorem txrx_quit (app : AppStruct) (ctl : ControlStruct) (stdin : List Char) (left : Timeval)
    (tRx tOut : Int) (hq : (lineOf stdin).head? = some 'q') :
    txrx app ctl { sel := .ready stdin, left := left, tRx := tRx, tOut := tOut } =
      { ret := 1, app := rxApp app left, ctl := ctl
        log := logPrint false (rxApp app left) .quitApplication } := by
  rw [txrx_ready, scan_quit stdin _ hq]

/-- A line whose stored part consists of bits is committed. -/
theorem txrx_commit (app : AppStruct) (ctl : ControlStruct) (stdin : List Char) (left : Timeval)
    (tRx tOut : Int) (hb : ∀ c ∈ storedLine stdin, isBit c = true) :
    txrx app ctl { sel := .ready stdin, left := left, tRx := tRx, tOut := tOut } =
      { ret := 0
        app := { rxApp app left with
          buffer := storedLine stdin ++ '\n' ::
            List.replicate (MAX_BUFFER_LEN - 1 - (storedLine stdin).length) NUL
          timeKeeper := tRx
          updateTimer := true }
        ctl := { ctl with
          controlSequence := storedLine stdin
            ++ List.replicate (MAX_BUFFER_LEN - (storedLine stdin).length) NUL
          periodCounter := 0
          numberOfPeriods := (storedLine stdin).length }
        log :=
          (if (storedLine stdin).length = MAX_BUFFER_LEN - 1 then
            logPrint false (rxApp app left) .bufferFull else []) ++
          (if app.debug = true then
            logPrint false (rxApp app left) .newControlSequence ++
              logPrint false (rxApp app left) (.echo (cString (storedLine stdin ++ '\n' ::
                List.replicate (MAX_BUFFER_LEN - 1 - (storedLine stdin).length) NUL)))
           else []) } := by
  have hl := storedLine_length stdin
  obtain ⟨n, hn⟩ : ∃ n, MAX_BUFFER_LEN - (storedLine stdin).length = n + 1 :=
    ⟨MAX_BUFFER_LEN - (storedLine stdin).length - 1, by
      simp only [MAX_BUFFER_LEN] at hl ⊢; omega⟩
  have hn2 : MAX_BUFFER_LEN - 1 - (storedLine stdin).length = n := by omega
  rw [txrx_ready, scan_valid stdin _ (rxApp_buffer app left) hb]
  simp only [if_true, hn, hn2, set_zeros, List.take_left, List.drop_replicate, rxApp_debug,
    logPrint]
  congr 1
  split_ifs <;> simp

/-- A line that does not start with `q` and whose stored part has a first
non-bit character `x` after the bits `b` is not committed. -/
theorem txrx_reject (app : AppStruct) (ctl : ControlStruct) (stdin : List Char) (left : Timeval)
    (tRx tOut : Int) (b r : List Char) (x : Char)
    (hs : storedLine stdin = b ++ x :: r) (hb : ∀ c ∈ b, isBit c = true)
    (hx : isBit x = false) (hq : ¬ (b = [] ∧ x = 'q')) :
    txrx app ctl { sel := .ready stdin, left := left, tRx := tRx, tOut := tOut } =
      { ret := 0
        app := { rxApp app left with
          debug := if x = 'd' ∧ b = [] then !app.debug else app.debug
          isCommand := if x = 'd' ∧ b = [] then true else false
          buffer := b ++ x :: '\n' :: List.replicate (MAX_BUFFER_LEN - 2 - b.length) NUL
          updateTimer := false }
        ctl := ctl
        log :=
          (if b.length + 1 = MAX_BUFFER_LEN - 1 then
            logPrint false (rxApp app left) .bufferFull else []) ++
          (if x = 'd' ∧ b = [] then []
           else logPrint false (rxApp app left) .invalidSequence) } := by
  have hl := storedLine_length stdin
  rw [hs] at hl
  simp only [List.length_append, List.length_cons] at hl
  obtain ⟨n, hn⟩ : ∃ n, MAX_BUFFER_LEN - 1 - b.length = n + 1 :=
    ⟨MAX_BUFFER_LEN - 1 - b.length - 1, by simp only [MAX_BUFFER_LEN] at hl ⊢; omega⟩
  have hn2 : MAX_BUFFER_LEN - 2 - b.length = n := by omega
  have hset : (b ++ x :: List.replicate (n + 1) NUL).set (b.length + 1) '\n'
      = b ++ x :: '\n' :: List.replicate n NUL := by
    have := set_zeros (b ++ [x]) n '\n'
    simpa using this
  rw [txrx_ready, scan_reject stdin _ b r x (rxApp_buffer app left) hs hb hx hq]
  simp only [hn, hn2, hset, rxApp_debug, rxApp_isCommand, logPrint, Bool.false_eq_true, if_false]
  by_cases hd : x = 'd' ∧ b = []
  · have hd1 : (x = 'd' ∧ b = []) = True := eq_true hd
    have h99 : ¬ (b.length + 1 = MAX_BUFFER_LEN - 1) := by
      rw [hd.2]; simp [MAX_BUFFER_LEN]
    simp only [hd1, if_true, h99, if_false, rxApp_logPointer]
    simp
  · simp only [hd, if_false, rxApp_logPointer]
    split_ifs <;> simp

/-! ## `controlOutput` at a tick boundary -/

theorem controlOutput_off (app : AppStruct) (ctl : ControlStruct) (now : Int)
    (hu : app.updateTimer = false) : controlOutput app ctl now = (ctl, []) := by
  simp [controlOutput, hu]

theorem controlOutput_idle (app : AppStruct) (ctl : ControlStruct) (now : Int)
    (hu : app.updateTimer = true) (h : ctl.periodCounter = ctl.numberOfPeriods) :
    controlOutput app ctl now =
      ({ ctl with periodCounter := ctl.periodCounter + 1 },
        logPrint false app .noInputSequence
          ++ logPrint false app (.elapsed (now - app.timeKeeper))) := by
  simp [controlOutput, hu, h]

theorem controlOutput_play (app : AppStruct) (ctl : ControlStruct) (now : Int)
    (hu : app.updateTimer = true) (h : ctl.periodCounter < ctl.numberOfPeriods) :
    controlOutput app ctl now =
      ({ ctl with periodCounter := ctl.periodCounter + 1 },
        ((if readSequence ctl.controlSequence ctl.periodCounter = some '1' then
            logPrint true app .on else logPrint true app .off)
          ++ (if app.debug = false then [{ msg := .newline, console := true, file := false }]
              else []))
          ++ logPrint false app (.elapsed (now - app.timeKeeper))) := by
  have h1 : ¬ (ctl.periodCounter = ctl.numberOfPeriods) := by omega
  simp only [controlOutput, hu, h1, h, if_true, if_false, List.nil_append]
  split_ifs <;> simp

theorem controlOutput_silent (app : AppStruct) (ctl : ControlStruct) (now : Int)
    (hu : app.updateTimer = true) (h : ctl.numberOfPeriods < ctl.periodCounter) :
    controlOutput app ctl now =
      (ctl, logPrint false app (.elapsed (now - app.timeKeeper))) := by
  have h1 : ¬ (ctl.periodCounter = ctl.numberOfPeriods) := by omega
  have h2 : ¬ (ctl.periodCounter < ctl.numberOfPeriods) := by omega
  simp [controlOutput, hu, h1, h2]

theorem readSequence_line (line : List Char) (tail : List Char) (p : Nat) (hp : p < line.length) :
    readSequence (line ++ tail) (p : Int) = line.get? p := by
  simp [readSequence, List.getElem?_append_left hp]

/-- What `controlOutput` does at a tick boundary when the committed sequence
is `line` and the cursor is `p`. -/
theorem controlOutput_boundary (app : AppStruct) (ctl : ControlStruct) (now : Int)
    (line tail : List Char) (p : Nat) (hu : app.updateTimer = true)
    (hseq : ctl.controlSequence = line ++ tail)
    (hnp : ctl.numberOfPeriods = line.length) (hpc : ctl.periodCounter = p) :
    (controlOutput app ctl now).1
        = { ctl with periodCounter := if p ≤ line.length then (p : Int) + 1 else p } ∧
      actuations (controlOutput app ctl now).2 = (line.get? p).toList.map bitMsg ∧
      idleCount (controlOutput app ctl now).2 = if p = line.length then 1 else 0 := by
  rcases Nat.lt_trichotomy p line.length with hlt | heq | hgt
  · rw [controlOutput_play app ctl now hu (by omega)]
    have hle : p ≤ line.length := by omega
    have hne : p ≠ line.length := by omega
    rw [hseq, hpc, readSequence_line line tail p hlt]
    obtain ⟨c, hget⟩ : ∃ c, line.get? p = some c := by
      cases h : line.get? p with
      | some c => exact ⟨c, rfl⟩
      | none =>
        rw [List.get?_eq_none] at h
        omega
    refine ⟨by simp [hle], ?_, ?_⟩
    · rw [hget]
      by_cases h1 : c = '1'
      · cases hd : app.debug <;> simp [actuations, logPrint, bitMsg, h1, hd]
      · cases hd : app.debug <;> simp [actuations, logPrint, bitMsg, h1, hd]
    · split_ifs <;> simp [idleCount, logPrint, hne]
  · rw [controlOutput_idle app ctl now hu (by omega)]
    refine ⟨by simp [heq, hpc], ?_, ?_⟩
    · simp [actuations, logPrint, heq]
    · simp [idleCount, logPrint, heq]
  · rw [controlOutput_silent app ctl now hu (by omega)]
    have hle : ¬ p ≤ line.length := by omega
    have hne : p ≠ line.length := by omega
    refine ⟨by cases ctl; simp only [hle, if_false] at *; simp_all, ?_, ?_⟩
    · have : line.get? p = none := by simp; omega
      rw [this]
      simp [actuations, logPrint]
    · simp [idleCount, logPrint, hne]

/-! ## Classification of input lines -/

theorem storedLine_head (stdin : List Char) :
    (storedLine stdin).head? = (lineOf stdin).head? := by
  simp [storedLine, List.head?_take, MAX_BUFFER_LEN]

theorem lineOf_of_no_newline (l : List Char) (h : ∀ c ∈ l, ¬ (c = EOF_CHAR ∨ c = '\n')) :
    lineOf l = l :=
  (lineOf_eq_self_iff l).2 h

theorem storedLine_idem (stdin : List Char) : storedLine (storedLine stdin) = storedLine stdin := by
  have h := lineOf_of_no_newline (storedLine stdin) (storedLine_ne_newline stdin)
  conv_lhs => rw [storedLine, h]
  exact List.take_of_length_le (storedLine_length stdin)

theorem storedLine_short (stdin : List Char) (h : (lineOf stdin).length ≤ MAX_BUFFER_LEN - 1) :
    storedLine stdin = lineOf stdin :=
  List.take_of_length_le h

/-- The three ways in which `txrx` can treat a readable line. -/
theorem line_cases (stdin : List Char) :
    (lineOf stdin).head? = some 'q' ∨
    ((lineOf stdin).head? ≠ some 'q' ∧ ∀ c ∈ storedLine stdin, isBit c = true) ∨
    ((lineOf stdin).head? ≠ some 'q' ∧
      ∃ b x r, storedLine stdin = b ++ x :: r ∧ (∀ c ∈ b, isBit c = true) ∧ isBit x = false ∧
        ¬ (b = [] ∧ x = 'q')) := by
  by_cases hq : (lineOf stdin).head? = some 'q'
  · exact Or.inl hq
  · right
    rcases bits_or_split (storedLine stdin) with h | ⟨b, x, r, he, hb, hx⟩
    · exact Or.inl ⟨hq, h⟩
    · refine Or.inr ⟨hq, b, x, r, he, hb, hx, ?_⟩
      rintro ⟨h1, h2⟩
      apply hq
      rw [← storedLine_head, he, h1, h2]
      rfl

/-- A stored line with a non-bit character splits at the first such
character. -/
theorem split_of_nonbit (stdin : List Char) (hq : (lineOf stdin).head? ≠ some 'q')
    (hbad : ∃ c ∈ storedLine stdin, isBit c = false) :
    ∃ b x r, storedLine stdin = b ++ x :: r ∧ (∀ c ∈ b, isBit c = true) ∧ isBit x = false ∧
      ¬ (b = [] ∧ x = 'q') := by
  rcases line_cases stdin with h | ⟨_, h⟩ | ⟨_, h⟩
  · exact absurd h hq
  · obtain ⟨c, hc, hc2⟩ := hbad
    rw [h c hc] at hc2
    exact absurd hc2 (by simp)
  · exact h

theorem head_of_split (stdin : List Char) (b r : List Char) (x : Char)
    (hs : storedLine stdin = b ++ x :: r) (hb : ∀ c ∈ b, isBit c = true) :
    ((lineOf stdin).head? = some 'd' ↔ (x = 'd' ∧ b = [])) := by
  rw [← storedLine_head, hs]
  cases b with
  | nil => simp
  | cons c cs =>
    have hc : isBit c = true := hb c (List.mem_cons_self _ _)
    have : c ≠ 'd' := by rcases (isBit_iff c).1 hc with h | h <;> simp [h]
    simp [this]

/-! ## Iterations of the loop -/

theorem armTimer_timeout (app : AppStruct) :
    (armTimer app).timeout = if app.updateTimer = true then app.period else app.timeout := by
  simp only [armTimer]; split_ifs <;> rfl

theorem armTimer_period (app : AppStruct) : (armTimer app).period = app.period := by
  simp only [armTimer]; split_ifs <;> rfl

theorem rxApp_period (app : AppStruct) (left : Timeval) : (rxApp app left).period = app.period := by
  simp only [rxApp, armTimer]; split_ifs <;> rfl

theorem rxApp_timeout (app : AppStruct) (left : Timeval) : (rxApp app left).timeout = left := rfl

theorem actuations_append (a b : List Event) :
    actuations (a ++ b) = actuations a ++ actuations b := by
  simp [actuations]

theorem idleCount_append (a b : List Event) : idleCount (a ++ b) = idleCount a + idleCount b := by
  simp [idleCount]

theorem txrx_timeout (app : AppStruct) (ctl : ControlStruct) (env : Tick)
    (h : env.sel = .timeout) :
    txrx app ctl env =
      { ret := 0
        app := { armTimer app with dSet := false, timeout := env.left, updateTimer := true }
        ctl := ctl, log := [] } := by
  simp [txrx, h]

theorem txrx_error (app : AppStruct) (ctl : ControlStruct) (env : Tick)
    (h : env.sel = .error) :
    txrx app ctl env =
      { ret := -1, app := armTimer app, ctl := ctl, log := logPrint false (armTimer app) .error1 } := by
  simp [txrx, h]

/-- No actuation and no idle message is ever produced by `txrx`. -/
theorem txrx_log_quiet (app : AppStruct) (ctl : ControlStruct) (env : Tick) :
    actuations (txrx app ctl env).log = [] ∧ idleCount (txrx app ctl env).log = 0 := by
  obtain ⟨sel, left, tRx, tOut⟩ := env
  cases sel with
  | error => rw [txrx_error _ _ _ rfl]; simp [actuations, idleCount, logPrint]
  | timeout => rw [txrx_timeout _ _ _ rfl]; simp [actuations, idleCount]
  | ready stdin =>
    rcases line_cases stdin with hq | ⟨_, hb⟩ | ⟨_, b, x, r, hs, hb, hx, hbq⟩
    · rw [txrx_quit app ctl stdin left tRx tOut hq]; simp [actuations, idleCount, logPrint]
    · rw [txrx_commit app ctl stdin left tRx tOut hb]
      constructor
      · simp only [actuations_append]
        split_ifs <;> simp [actuations, logPrint]
      · simp only [idleCount_append]
        split_ifs <;> simp [idleCount, logPrint]
    · rw [txrx_reject app ctl stdin left tRx tOut b r x hs hb hx hbq]
      constructor
      · simp only [actuations_append]
        split_ifs <;> simp [actuations, logPrint]
      · simp only [idleCount_append]
        split_ifs <;> simp [idleCount, logPrint]

theorem loopBody_running (s : Sys) (env : Tick) (h : (txrx s.app s.ctl env).ret = 0) :
    loopBody s env =
      (.running
        { app := (txrx s.app s.ctl env).app
          ctl := (controlOutput (txrx s.app s.ctl env).app (txrx s.app s.ctl env).ctl env.tOut).1 },
        (txrx s.app s.ctl env).log
          ++ (controlOutput (txrx s.app s.ctl env).app (txrx s.app s.ctl env).ctl env.tOut).2) := by
  simp [loopBody, h]

/-- The events of an iteration that continues: those of `controlOutput` are the only
actuations and idle messages. -/
theorem loopBody_events (s : Sys) (env : Tick) (h : (txrx s.app s.ctl env).ret = 0) :
    actuations (loopBody s env).2 =
      actuations
        (controlOutput (txrx s.app s.ctl env).app (txrx s.app s.ctl env).ctl env.tOut).2 ∧
    idleCount (loopBody s env).2 =
      idleCount
        (controlOutput (txrx s.app s.ctl env).app (txrx s.app s.ctl env).ctl env.tOut).2 := by
  rw [loopBody_running s env h]
  simp only [actuations_append, idleCount_append, (txrx_log_quiet s.app s.ctl env).1,
    (txrx_log_quiet s.app s.ctl env).2]
  simp

theorem lineOf_longLine : lineOf longLine = List.replicate 100 '0' ++ ['x'] := by
  have e : longLine = (List.replicate 100 '0' ++ ['x']) ++ ['\n'] := by simp [longLine]
  simp only [lineOf, e]
  rw [List.takeWhile_append_of_pos]
  · simp
  · intro c hc
    simp only [List.mem_append, List.mem_replicate, List.mem_singleton] at hc
    rcases hc with ⟨_, h⟩ | h <;> rw [h] <;> decide

theorem storedLine_longLine : storedLine longLine = List.replicate 100 '0' := by
  rw [storedLine, lineOf_longLine, List.take_append_of_le_length (by simp [MAX_BUFFER_LEN])]
  simp [MAX_BUFFER_LEN]

/-- The value returned by `txrx` on a readable line. -/
theorem txrx_ret_ready (app : AppStruct) (ctl : ControlStruct) (stdin : List Char)
    (left : Timeval) (tRx tOut : Int) :
    (txrx app ctl { sel := .ready stdin, left := left, tRx := tRx, tOut := tOut }).ret =
      if (lineOf stdin).head? = some 'q' then 1 else 0 := by
  rcases line_cases stdin with hq | ⟨hq, hb⟩ | ⟨hq, b, x, r, hs, hb, hx, hbq⟩
  · rw [txrx_quit app ctl stdin left tRx tOut hq]; simp [hq]
  · rw [txrx_commit app ctl stdin left tRx tOut hb]; simp [hq]
  · rw [txrx_reject app ctl stdin left tRx tOut b r x hs hb hx hbq]; simp [hq]

theorem warnCount_append (a b : List Event) : warnCount (a ++ b) = warnCount a + warnCount b := by
  simp [warnCount]

theorem take_lineOf_eq (stdin : List Char) :
    (lineOf stdin).take (MAX_BUFFER_LEN - 2) = (storedLine stdin).take (MAX_BUFFER_LEN - 2) := by
  simp [storedLine, List.take_take, MAX_BUFFER_LEN]

theorem lineOf_fullLine : lineOf fullLine = List.replicate 100 '0' := by
  simp only [lineOf, fullLine]
  rw [List.takeWhile_append_of_pos]
  · simp
  · intro c hc
    rw [(List.mem_replicate.1 hc).2]
    decide

theorem storedLine_fullLine : storedLine fullLine = List.replicate 100 '0' := by
  rw [storedLine, lineOf_fullLine]
  exact List.take_of_length_le (by simp [MAX_BUFFER_LEN])

theorem runLoop_cons_running (s : Sys) (env : Tick) (rest : List Tick) (s1 : Sys)
    (log : List Event) (h : loopBody s env = (.running s1, log)) :
    runLoop s (env :: rest) = ((runLoop s1 rest).1, log :: (runLoop s1 rest).2) := by
  simp [runLoop, h]

/-- An iteration in which `select` times out, at a state whose committed sequence is `line`
and whose cursor is `p`. -/
theorem loopBody_timeout_play (s : Sys) (t : Tick) (ht : t.sel = .timeout)
    (line tail : List Char) (p : Nat)
    (hseq : s.ctl.controlSequence = line ++ tail)
    (hnp : s.ctl.numberOfPeriods = line.length) (hpc : s.ctl.periodCounter = p) :
    ∃ app1 log, loopBody s t =
        (.running
          { app := app1
            ctl := { s.ctl with periodCounter := ((if p ≤ line.length then p + 1 else p : Nat) : Int) } },
          log) ∧
      actuations log = (line.get? p).toList.map bitMsg ∧
      idleCount log = if p = line.length then 1 else 0 := by
  have hr := txrx_timeout s.app s.ctl t ht
  have hret : (txrx s.app s.ctl t).ret = 0 := by rw [hr]
  have hb := controlOutput_boundary (txrx s.app s.ctl t).app (txrx s.app s.ctl t).ctl t.tOut
    line tail p (by rw [hr]) (by rw [hr]; exact hseq) (by rw [hr]; exact hnp) (by rw [hr]; exact hpc)
  have hev := loopBody_events s t hret
  refine ⟨(txrx s.app s.ctl t).app, (loopBody s t).2, ?_, ?_, ?_⟩
  · rw [loopBody_running s t hret, hb.1]
    have : (txrx s.app s.ctl t).ctl = s.ctl := by rw [hr]
    rw [this]
    split_ifs <;> simp
  · rw [hev.1, hb.2.1]
  · rw [hev.2, hb.2.2]

theorem get?_none_of_lt (line : List Char) (n : Nat) (h : line.length < n) :
    (line.get? n) = none := by
  simp; omega

/-- The loop on time-outs only: iteration `k` plays bit `p + k` of the committed line, logs
the idle message when `p + k` is the length of the line, and is silent afterwards. -/
theorem run_timeouts (line tail : List Char) (ticks : List Tick)
    (hto : ∀ t ∈ ticks, t.sel = .timeout) (s : Sys) (p : Nat)
    (hseq : s.ctl.controlSequence = line ++ tail)
    (hnp : s.ctl.numberOfPeriods = line.length) (hpc : s.ctl.periodCounter = p) :
    ∃ s1, (runLoop s ticks).1 = .running s1 ∧
      (runLoop s ticks).2.map actuations =
        (List.range ticks.length).map (fun k => (line.get? (p + k)).toList.map bitMsg) ∧
      (runLoop s ticks).2.map idleCount =
        (List.range ticks.length).map (fun k => if p + k = line.length then 1 else 0) := by
  induction ticks generalizing s p with
  | nil => exact ⟨s, rfl, rfl, rfl⟩
  | cons t ticks ih =>
    have ht : t.sel = .timeout := hto t (List.mem_cons_self _ _)
    have hts : ∀ u ∈ ticks, u.sel = .timeout := fun u hu => hto u (List.mem_cons_of_mem _ hu)
    obtain ⟨app1, log, hlb, hact, hidle⟩ := loopBody_timeout_play s t ht line tail p hseq hnp hpc
    rw [runLoop_cons_running s t ticks _ log hlb]
    obtain ⟨s1, h1, h2, h3⟩ := ih hts
      { app := app1
        ctl := { s.ctl with periodCounter := ((if p ≤ line.length then p + 1 else p : Nat) : Int) } }
      (if p ≤ line.length then p + 1 else p) hseq hnp rfl
    refine ⟨s1, h1, ?_, ?_⟩
    · simp only [List.map_cons, h2, hact, List.length_cons, List.range_succ_eq_map,
        List.map_map, Nat.add_zero]
      congr 1
      apply List.map_congr_left
      intro k _
      simp only [Function.comp]
      by_cases hp : p ≤ line.length
      · simp only [hp, if_true]
        have : p + 1 + k = p + (k + 1) := by omega
        rw [this]
      · simp only [hp, if_false]
        rw [get?_none_of_lt line (p + k) (by omega), get?_none_of_lt line (p + (k + 1)) (by omega)]
    · simp only [List.map_cons, h3, hidle, List.length_cons, List.range_succ_eq_map,
        List.map_map, Nat.add_zero]
      congr 1
      apply List.map_congr_left
      intro k _
      simp only [Function.comp]
      by_cases hp : p ≤ line.length
      · simp only [hp, if_true, Nat.succ_eq_add_one]
        split_ifs <;> first | rfl | (exfalso; omega)
      · simp only [hp, if_false, Nat.succ_eq_add_one]
        split_ifs <;> first | rfl | (exfalso; omega)

theorem ctlInv_init (cfg : Startup) : CtlInv (mainInit cfg).ctl := by
  refine ⟨le_refl _, by simp [mainInit, MAX_BUFFER_LEN], by simp [mainInit], by simp [mainInit], ?_⟩
  intro i hi
  simp only [mainInit] at hi
  omega

/-- A committed line satisfies the bounds. -/
theorem ctlInv_commit (ctl : ControlStruct) (line : List Char) (tail : List Char)
    (hb : ∀ c ∈ line, isBit c = true) (hl : line.length ≤ MAX_BUFFER_LEN - 1) :
    CtlInv { ctl with
      controlSequence := line ++ tail, periodCounter := 0, numberOfPeriods := line.length } := by
  refine ⟨by simp, ?_, le_refl _, by simp; omega, ?_⟩
  · simp only [MAX_BUFFER_LEN] at hl ⊢
    omega
  · intro i hi
    have hi2 : i < line.length := by
      simp only at hi
      omega
    show (line ++ tail).get? i = some '0' ∨ (line ++ tail).get? i = some '1'
    have e : (line ++ tail).get? i = line.get? i := by simp [List.getElem?_append_left hi2]
    rw [e]
    cases hg : line.get? i with
    | none =>
      rw [List.get?_eq_none] at hg
      omega
    | some c =>
      rcases (isBit_iff c).1 (hb c (List.get?_mem hg)) with h | h
      · left; rw [h]
      · right; rw [h]

/-- The bounds are preserved by `txrx`. -/
theorem ctlInv_txrx (app : AppStruct) (ctl : ControlStruct) (env : Tick) (h : CtlInv ctl) :
    CtlInv (txrx app ctl env).ctl := by
  obtain ⟨sel, left, tRx, tOut⟩ := env
  cases sel with
  | error => rw [txrx_error _ _ _ rfl]; exact h
  | timeout => rw [txrx_timeout _ _ _ rfl]; exact h
  | ready stdin =>
    rcases line_cases stdin with hq | ⟨_, hb⟩ | ⟨_, b, x, r, hs, hb, hx, hbq⟩
    · rw [txrx_quit app ctl stdin left tRx tOut hq]; exact h
    · rw [txrx_commit app ctl stdin left tRx tOut hb]
      exact ctlInv_commit ctl (storedLine stdin) _ hb (storedLine_length stdin)
    · rw [txrx_reject app ctl stdin left tRx tOut b r x hs hb hx hbq]; exact h

/-- The bounds are preserved by `controlOutput`. -/
theorem ctlInv_controlOutput (app : AppStruct) (ctl : ControlStruct) (now : Int)
    (h : CtlInv ctl) : CtlInv (controlOutput app ctl now).1 := by
  obtain ⟨h1, h2, h3, h4, h5⟩ := h
  cases hu : app.updateTimer with
  | false => rw [controlOutput_off app ctl now hu]; exact ⟨h1, h2, h3, h4, h5⟩
  | true =>
    rcases lt_trichotomy ctl.periodCounter ctl.numberOfPeriods with hlt | heq | hgt
    · rw [controlOutput_play app ctl now hu hlt]
      exact ⟨h1, h2, by simp only; omega, by simp only; omega, h5⟩
    · rw [controlOutput_idle app ctl now hu heq]
      exact ⟨h1, h2, by simp only; omega, by simp only; omega, h5⟩
    · rw [controlOutput_silent app ctl now hu hgt]
      exact ⟨h1, h2, h3, h4, h5⟩

theorem ctlInv_loopBody (s s1 : Sys) (env : Tick) (h : CtlInv s.ctl)
    (hs : (loopBody s env).1 = .running s1) : CtlInv s1.ctl := by
  simp only [loopBody] at hs
  split_ifs at hs with h1 h2
  simp only [Outcome.running.injEq] at hs
  rw [← hs]
  exact ctlInv_controlOutput _ _ _ (ctlInv_txrx _ _ _ h)

theorem ctlInv_runLoop (ticks : List Tick) (s s1 : Sys) (h : CtlInv s.ctl)
    (hs : (runLoop s ticks).1 = .running s1) : CtlInv s1.ctl := by
  induction ticks generalizing s with
  | nil =>
    simp only [runLoop, Outcome.running.injEq] at hs
    rw [← hs]; exact h
  | cons t ticks ih =>
    simp only [runLoop] at hs
    cases hlb : loopBody s t with
    | mk o log =>
      cases o with
      | exited e => rw [hlb] at hs; simp at hs
      | running s2 =>
        rw [hlb] at hs
        exact ih s2 (ctlInv_loopBody s s2 t h (by rw [hlb])) hs

theorem ctlInv_reachable (s : Sys) (h : Reachable s) : CtlInv s.ctl := by
  obtain ⟨cfg, ticks, hr⟩ := h
  exact ctlInv_runLoop ticks _ s (ctlInv_init cfg) hr

theorem sampleAfter_reachable : Reachable sampleAfter :=
  ⟨{ debug := true, cyclePeriod := 5 / 2, logFile := "log.txt"
     period := { tv_sec := 2, tv_usec := 500000 }, fopenResult := some 3, t0 := 0 },
    [readyTick ['1', '0', '\n'], timeoutTick, timeoutTick], rfl⟩

theorem gated_logPrint (a : Bool) (app : AppStruct) (msg : Msg) :
    ∀ e ∈ logPrint a app msg, Gated e := by
  intro e he
  simp only [logPrint, List.mem_singleton] at he
  subst he
  intro h
  simp only [Bool.and_eq_true] at h
  simp [h.1]

theorem gated_append (l1 l2 : List Event) (h1 : ∀ e ∈ l1, Gated e) (h2 : ∀ e ∈ l2, Gated e) :
    ∀ e ∈ l1 ++ l2, Gated e := by
  intro e he
  rcases List.mem_append.1 he with h | h
  · exact h1 e h
  · exact h2 e h

theorem gated_nil : ∀ e ∈ ([] : List Event), Gated e := by
  intro e he
  cases he

theorem gated_ite (c : Prop) [Decidable c] (l1 l2 : List Event) (h1 : ∀ e ∈ l1, Gated e)
    (h2 : ∀ e ∈ l2, Gated e) : ∀ e ∈ (if c then l1 else l2), Gated e := by
  split_ifs
  · exact h1
  · exact h2

/-- Every event of `txrx` that reached the log file also reached the console. -/
theorem gated_txrx (app : AppStruct) (ctl : ControlStruct) (env : Tick) :
    ∀ e ∈ (txrx app ctl env).log, Gated e := by
  obtain ⟨sel, left, tRx, tOut⟩ := env
  cases sel with
  | error => rw [txrx_error _ _ _ rfl]; exact gated_logPrint _ _ _
  | timeout => rw [txrx_timeout _ _ _ rfl]; exact gated_nil
  | ready stdin =>
    rcases line_cases stdin with hq | ⟨_, hb⟩ | ⟨_, b, x, r, hs, hb, hx, hbq⟩
    · rw [txrx_quit app ctl stdin left tRx tOut hq]; exact gated_logPrint _ _ _
    · rw [txrx_commit app ctl stdin left tRx tOut hb]
      exact gated_append _ _ (gated_ite _ _ _ (gated_logPrint _ _ _) gated_nil)
        (gated_ite _ _ _
          (gated_append _ _ (gated_logPrint _ _ _) (gated_logPrint _ _ _)) gated_nil)
    · rw [txrx_reject app ctl stdin left tRx tOut b r x hs hb hx hbq]
      exact gated_append _ _ (gated_ite _ _ _ (gated_logPrint _ _ _) gated_nil)
        (gated_ite _ _ _ gated_nil (gated_logPrint _ _ _))

/-- Every event of `controlOutput` that reached the log file also reached the console. -/
theorem gated_controlOutput (app : AppStruct) (ctl : ControlStruct) (now : Int) :
    ∀ e ∈ (controlOutput app ctl now).2, Gated e := by
  cases hu : app.updateTimer with
  | false => rw [controlOutput_off app ctl now hu]; exact gated_nil
  | true =>
    rcases lt_trichotomy ctl.periodCounter ctl.numberOfPeriods with hlt | heq | hgt
    · rw [controlOutput_play app ctl now hu hlt]
      refine gated_append _ _ (gated_append _ _
        (gated_ite _ _ _ (gated_logPrint _ _ _) (gated_logPrint _ _ _))
        (gated_ite _ _ _ ?_ gated_nil)) (gated_logPrint _ _ _)
      intro e he
      simp only [List.mem_singleton] at he
      subst he
      intro h
      rfl
    · rw [controlOutput_idle app ctl now hu heq]
      exact gated_append _ _ (gated_logPrint _ _ _) (gated_logPrint _ _ _)
    · rw [controlOutput_silent app ctl now hu hgt]
      exact gated_logPrint _ _ _

/-- Every event of a loop iteration that reached the log file also reached the console. -/
theorem gated_loopBody (s : Sys) (env : Tick) : ∀ e ∈ (loopBody s env).2, Gated e := by
  simp only [loopBody]
  split_ifs
  · exact gated_txrx _ _ _
  · exact gated_txrx _ _ _
  · exact gated_append _ _ (gated_txrx _ _ _) (gated_controlOutput _ _ _)

theorem ctlBounds_of_inv (c : ControlStruct) (h : CtlInv c) : CtlBounds c :=
  ⟨h.1, h.2.1, h.2.2.1, h.2.2.2.1⟩

/-- The counter bounds are preserved by `txrx`. -/
theorem ctlBounds_txrx (app : AppStruct) (ctl : ControlStruct) (env : Tick)
    (h : CtlBounds ctl) : CtlBounds (txrx app ctl env).ctl := by
  obtain ⟨sel, left, tRx, tOut⟩ := env
  cases sel with
  | error => rw [txrx_error _ _ _ rfl]; exact h
  | timeout => rw [txrx_timeout _ _ _ rfl]; exact h
  | ready stdin =>
    rcases line_cases stdin with hq | ⟨_, hb⟩ | ⟨_, b, x, r, hs, hb, hx, hbq⟩
    · rw [txrx_quit app ctl stdin left tRx tOut hq]; exact h
    · rw [txrx_commit app ctl stdin left tRx tOut hb]
      exact ctlBounds_of_inv _
        (ctlInv_commit ctl (storedLine stdin) _ hb (storedLine_length stdin))
    · rw [txrx_reject app ctl stdin left tRx tOut b r x hs hb hx hbq]; exact h

/-- The counter bounds are preserved by `controlOutput`. -/
theorem ctlBounds_controlOutput (app : AppStruct) (ctl : ControlStruct) (now : Int)
    (h : CtlBounds ctl) : CtlBounds (controlOutput app ctl now).1 := by
  obtain ⟨h1, h2, h3, h4⟩ := h
  cases hu : app.updateTimer with
  | false => rw [controlOutput_off app ctl now hu]; exact ⟨h1, h2, h3, h4⟩
  | true =>
    rcases lt_trichotomy ctl.periodCounter ctl.numberOfPeriods with hlt | heq | hgt
    · rw [controlOutput_play app ctl now hu hlt]
      exact ⟨h1, h2, by simp only; omega, by simp only; omega⟩
    · rw [controlOutput_idle app ctl now hu heq]
      exact ⟨h1, h2, by simp only; omega, by simp only; omega⟩
    · rw [controlOutput_silent app ctl now hu hgt]
      exact ⟨h1, h2, h3, h4⟩

theorem readSequence_bit (ctl : ControlStruct) (h0 : 0 ≤ ctl.periodCounter)
    (hlt : ctl.periodCounter < ctl.numberOfPeriods)
    (hbits : ∀ i : Nat, (i : Int) < ctl.numberOfPeriods →
      ctl.controlSequence.get? i = some '0' ∨ ctl.controlSequence.get? i = some '1') :
    readSequence ctl.controlSequence ctl.periodCounter = some '0' ∨
      readSequence ctl.controlSequence ctl.periodCounter = some '1' := by
  simp only [readSequence, h0, if_true]
  apply hbits
  rw [Int.toNat_of_nonneg h0]
  exact hlt

/-- The value returned by `getSettings` is -1, 0 or 1. -/
theorem getSettingsLoop_ret (argc : Nat) (opts : List GetoptResult) (st : SettingStruct) :
    (getSettingsLoop argc opts st).ret = -1 ∨ (getSettingsLoop argc opts st).ret = 0 ∨
      (getSettingsLoop argc opts st).ret = 1 := by
  induction opts generalizing st with
  | nil => simp [getSettingsLoop]
  | cons o rest ih =>
    cases o with
    | h => simp [getSettingsLoop]
    | d optarg =>
      simp only [getSettingsLoop]
      split_ifs
      · exact ih _
      · exact ih _
      · simp
    | t v =>
      simp only [getSettingsLoop]
      split_ifs
      · exact ih _
      · simp
    | l optarg =>
      simp only [getSettingsLoop]
      split_ifs
      · exact ih _
      · simp
    | unknown => simp only [getSettingsLoop]; exact ih _
    | other => simp [getSettingsLoop]

theorem cRound_of_nonneg (x : Rat) (h : 0 ≤ x) : cRound x = ⌊x + 1 / 2⌋ := by
  simp [cRound, h]

theorem roundHalfEven_eq (x : Rat) (n : Int) (h1 : (n : Rat) - 1 / 2 < x)
    (h2 : x < (n : Rat) + 1 / 2) : roundHalfEven x = n := by
  by_cases hx : (n : Rat) ≤ x
  · have hf : ⌊x⌋ = n := by
      rw [Int.floor_eq_iff]
      constructor
      · exact hx
      · linarith
    simp only [roundHalfEven, hf]
    rw [if_pos (by linarith)]
  · have hf : ⌊x⌋ = n - 1 := by
      rw [Int.floor_eq_iff]
      push_cast
      constructor
      · linarith
      · linarith
    simp only [roundHalfEven, hf]
    push_cast
    rw [if_neg (by linarith), if_pos (by linarith)]
    ring

theorem intLog_eq (x : Rat) (e : Int) (hx : 0 < x) (h1 : (2 : Rat) ^ e ≤ x)
    (h2 : x < (2 : Rat) ^ (e + 1)) : Int.log 2 x = e := by
  have a : e ≤ Int.log 2 x :=
    (Int.zpow_le_iff_le_log (by norm_num) hx).1 (by simpa using h1)
  have b : Int.log 2 x < e + 1 :=
    (Int.lt_zpow_iff_log_lt (by norm_num) hx).1 (by simpa using h2)
  omega

theorem toFloat_eq (x : Rat) (e n : Int) (hx : 0 < x) (h1 : (2 : Rat) ^ e ≤ x)
    (h2 : x < (2 : Rat) ^ (e + 1)) (he : -126 ≤ e)
    (h3 : (n : Rat) - 1 / 2 < x / 2 ^ (e - 23)) (h4 : x / 2 ^ (e - 23) < (n : Rat) + 1 / 2) :
    toFloat x = n * 2 ^ (e - 23) := by
  have hl : Int.log 2 |x| = e := by
    rw [abs_of_pos hx]
    exact intLog_eq x e hx h1 h2
  have hm : max e (-126) = e := max_eq_left he
  simp only [toFloat, hx.ne', if_false, hl, hm]
  rw [roundHalfEven_eq _ n h3 h4]

theorem toFloat_197 : toFloat (197 / 100) = 8262779 / 4194304 := by
  rw [toFloat_eq (197 / 100) 0 16525558 (by norm_num) (by norm_num) (by norm_num) (by norm_num)
    (by norm_num) (by norm_num)]
  norm_num

theorem toFloat_1970 : toFloat (8262779 / 4194304 * 10) = 5164237 / 262144 := by
  rw [toFloat_eq (8262779 / 4194304 * 10) 4 10328474 (by norm_num) (by norm_num) (by norm_num)
    (by norm_num) (by norm_num) (by norm_num)]
  norm_num

theorem toFloat_25 : toFloat (5 / 2 * 10) = 25 := by
  rw [toFloat_eq (5 / 2 * 10) 4 13107200 (by norm_num) (by norm_num) (by norm_num)
    (by norm_num) (by norm_num) (by norm_num)]
  norm_num

theorem cRound_eq (x : Rat) (n : Int) (h0 : 0 ≤ x) (h1 : (n : Rat) ≤ x + 1 / 2)
    (h2 : x + 1 / 2 < (n : Rat) + 1) : cRound x = n := by
  simp only [cRound, h0, if_true]
  rw [Int.floor_eq_iff]
  exact ⟨h1, h2⟩

theorem setPeriod_197 : setPeriod (toFloat (197 / 100)) = { tv_sec := 1, tv_usec := 0 } := by
  have hf : ⌊(8262779 / 4194304 : Rat)⌋ = 1 := by
    rw [Int.floor_eq_iff]; norm_num
  have hr : cRound (5164237 / 262144) = 20 :=
    cRound_eq _ 20 (by norm_num) (by norm_num) (by norm_num)
  simp only [setPeriod, toFloat_197, toFloat_1970, hf, hr]
  rfl

/-- The store index of the loop of `txrx` is always inside the array: the checked loop never
faults and computes what `scanLine` computes. -/
theorem scanLineChecked_eq (cs : List Char) (st : ScanState) :
    scanLineChecked cs st = .ok (scanLine cs st) := by
  induction cs generalizing st with
  | nil => rfl
  | cons c cs ih =>
    simp only [scanLineChecked, scanLine]
    split_ifs with h1 h2 h3 h4 h5 h6 h7 h8
    all_goals first
      | rfl
      | exact ih _
      | (exfalso; simp only [MAX_BUFFER_LEN] at *; omega)

theorem txrxChecked_ready (app : AppStruct) (ctl : ControlStruct) (stdin : List Char)
    (left : Timeval) (tRx tOut : Int) :
    txrxChecked app ctl { sel := .ready stdin, left := left, tRx := tRx, tOut := tOut } =
      match scanLine stdin { app := rxApp app left, count := 0, isValid := true, log := [] } with
      | .quit st => .ok { ret := 1, app := st.app, ctl := ctl, log := st.log }
      | .endOfLine st =>
        if st.count < MAX_BUFFER_LEN then
          if st.isValid = true then
            if (st.app.debug = true ∧ NUL ∉ st.app.buffer.set st.count '\n') then
              .error .stringRead
            else if st.count ≤ MAX_BUFFER_LEN then
              .ok { ret := 0
                    app := { st.app with
                      buffer := st.app.buffer.set st.count '\n'
                      timeKeeper := tRx, updateTimer := true }
                    ctl := { ctl with
                      controlSequence :=
                        (st.app.buffer.set st.count '\n').take st.count
                          ++ (List.replicate MAX_BUFFER_LEN NUL).drop st.count
                      periodCounter := 0
                      numberOfPeriods := st.count }
                    log :=
                      if st.app.debug = true then
                        st.log ++ logPrint false
                            { st.app with buffer := st.app.buffer.set st.count '\n' }
                            .newControlSequence
                          ++ logPrint false
                            { st.app with buffer := st.app.buffer.set st.count '\n' }
                            (.echo (cString (st.app.buffer.set st.count '\n')))
                      else st.log }
            else .error .copy
          else
            .ok { ret := 0
                  app := { st.app with
                    buffer := st.app.buffer.set st.count '\n', updateTimer := false }
                  ctl := ctl
                  log :=
                    if st.app.isCommand = false then
                      st.log ++ logPrint false
                        { st.app with buffer := st.app.buffer.set st.count '\n' }
                        .invalidSequence
                    else st.log }
        else .error .terminator := by
  have h := scanLineChecked_eq stdin
    { app := rxApp app left, count := 0, isValid := true, log := [] }
  simp only [txrxChecked, rxApp] at h ⊢
  rw [h]
  cases scanLine stdin _ <;> rfl

theorem nul_not_bit (c : Char) (h : isBit c = true) : c ≠ NUL := by
  rcases (isBit_iff c).1 h with h | h <;> rw [h] <;> decide

/-- After the line feed has been written behind a stored line of bits, `buffer` holds a NUL
exactly when fewer than `MAX_BUFFER_LEN-1` characters are stored. -/
theorem nul_mem_buffer (stored : List Char) (n : Nat) (hb : ∀ c ∈ stored, isBit c = true) :
    NUL ∈ stored ++ '\n' :: List.replicate n NUL ↔ 0 < n := by
  constructor
  · intro h
    rcases List.mem_append.1 h with h | h
    · exact absurd rfl (nul_not_bit NUL (hb NUL h))
    · rcases List.mem_cons.1 h with h | h
      · exact absurd h (by decide)
      · by_contra hn
        have : n = 0 := by omega
        rw [this] at h
        simp at h
  · intro h
    apply List.mem_append_right
    apply List.mem_cons_of_mem
    exact List.mem_replicate.2 ⟨by omega, rfl⟩

theorem txrxChecked_timeout (app : AppStruct) (ctl : ControlStruct) (env : Tick)
    (h : env.sel = .timeout) : txrxChecked app ctl env = .ok (txrx app ctl env) := by
  simp [txrxChecked, txrx, h]

theorem txrxChecked_error (app : AppStruct) (ctl : ControlStruct) (env : Tick)
    (h : env.sel = .error) : txrxChecked app ctl env = .ok (txrx app ctl env) := by
  simp [txrxChecked, txrx, h]

/-- The accesses of `txrx` by index (the store in the loop, the line feed, the `memcpy`) are
inside the arrays for every state and every input; the only access that can leave `buffer` is
the `"%s"` read of a committed line of `MAX_BUFFER_LEN-1` characters while `debug` is on. -/
theorem txrxChecked_spec (app : AppStruct) (ctl : ControlStruct) (env : Tick) :
    txrxChecked app ctl env =
      if echoOverrun app env = true then .error .stringRead else .ok (txrx app ctl env) := by
  obtain ⟨sel, left, tRx, tOut⟩ := env
  cases sel with
  | error => rw [txrxChecked_error _ _ _ rfl]; simp [echoOverrun]
  | timeout => rw [txrxChecked_timeout _ _ _ rfl]; simp [echoOverrun]
  | ready stdin =>
    have hl := storedLine_length stdin
    rcases line_cases stdin with hq | ⟨_, hb⟩ | ⟨_, b, x, r, hs, hb, hx, hbq⟩
    · have hno : echoOverrun app
          { sel := .ready stdin, left := left, tRx := tRx, tOut := tOut } = false := by
        have hq2 := hq
        rw [← storedLine_head] at hq2
        have hmem : 'q' ∈ storedLine stdin := List.mem_of_mem_head? hq2
        have : (storedLine stdin).all isBit = false := by
          rw [List.all_eq_false]
          exact ⟨'q', hmem, by decide⟩
        simp [echoOverrun, this]
      rw [hno, txrxChecked_ready, txrx_ready, scan_quit stdin _ hq]
      simp
    · obtain ⟨n, hn⟩ : ∃ n, MAX_BUFFER_LEN - (storedLine stdin).length = n + 1 :=
        ⟨MAX_BUFFER_LEN - (storedLine stdin).length - 1, by
          simp only [MAX_BUFFER_LEN] at hl ⊢; omega⟩
      have hall : (storedLine stdin).all isBit = true := List.all_eq_true.2 hb
      have hlt : (storedLine stdin).length < MAX_BUFFER_LEN := by
        simp only [MAX_BUFFER_LEN] at hl ⊢; omega
      have hle : (storedLine stdin).length ≤ MAX_BUFFER_LEN := by omega
      rw [txrxChecked_ready, txrx_ready, scan_valid stdin _ (rxApp_buffer app left) hb]
      simp only [hn, set_zeros, hlt, hle, if_true, rxApp_debug, nul_mem_buffer _ n hb,
        echoOverrun, hall, Bool.and_true]
      by_cases hd : app.debug = true
      · by_cases h100 : (storedLine stdin).length = MAX_BUFFER_LEN - 1
        · have hn0 : ¬ (0 < n) := by omega
          simp [hd, h100, hn0]
        · have hn0 : 0 < n := by omega
          simp [hd, h100, hn0]
      · simp [hd]
    · have hl2 := hl
      rw [hs] at hl2
      simp only [List.length_append, List.length_cons] at hl2
      have hno : echoOverrun app
          { sel := .ready stdin, left := left, tRx := tRx, tOut := tOut } = false := by
        have : (storedLine stdin).all isBit = false := by
          rw [List.all_eq_false]
          exact ⟨x, by rw [hs]; simp, by simp [hx]⟩
        simp [echoOverrun, this]
      have hlt : b.length + 1 < MAX_BUFFER_LEN := by
        simp only [MAX_BUFFER_LEN] at hl2 ⊢; omega
      rw [hno, txrxChecked_ready, txrx_ready,
        scan_reject stdin _ b r x (rxApp_buffer app left) hs hb hx hbq]
      simp [hlt]

/-- The read `controlSequence[periodCounter]` of `controlOutput` is inside the array whenever
the counters satisfy their bounds. -/
theorem controlOutputChecked_eq (app : AppStruct) (ctl : ControlStruct) (now : Int)
    (h : CtlBounds ctl) :
    controlOutputChecked app ctl now = .ok (controlOutput app ctl now) ∧
    (app.updateTimer = true → ctl.periodCounter < ctl.numberOfPeriods →
      0 ≤ ctl.periodCounter ∧ ctl.numberOfPeriods ≤ (MAX_BUFFER_LEN : Int) - 1) := by
  obtain ⟨h1, h2, h3, h4⟩ := h
  refine ⟨?_, fun _ _ => ⟨h3, h2⟩⟩
  cases hu : app.updateTimer with
  | false => simp [controlOutputChecked, controlOutput, hu]
  | true =>
    rcases lt_trichotomy ctl.periodCounter ctl.numberOfPeriods with hlt | heq | hgt
    · have hne : ¬ (ctl.periodCounter = ctl.numberOfPeriods) := by omega
      have hin : 0 ≤ ctl.periodCounter ∧ ctl.periodCounter < (MAX_BUFFER_LEN : Int) := by
        simp only [MAX_BUFFER_LEN] at h2 ⊢
        constructor
        · exact h3
        · push_cast at h2 ⊢; omega
      simp [controlOutputChecked, controlOutput, hu, hne, hlt, hin]
    · simp [controlOutputChecked, controlOutput, hu, heq]
    · have hne : ¬ (ctl.periodCounter = ctl.numberOfPeriods) := by omega
      have hnlt : ¬ (ctl.periodCounter < ctl.numberOfPeriods) := by omega
      simp [controlOutputChecked, controlOutput, hu, hne, hnlt]

/-- In every reachable state and for every input, the accesses by index listed for `txrx`
and `controlOutput` are inside the arrays; `txrx` can only fault in the `"%s"` read. -/
theorem indexed_accesses_in_bounds (s : Sys) (h : Reachable s) (env : Tick) (now : Int) :
    (txrxChecked s.app s.ctl env = .ok (txrx s.app s.ctl env) ∨
      txrxChecked s.app s.ctl env = .error .stringRead) ∧
    controlOutputChecked (txrx s.app s.ctl env).app (txrx s.app s.ctl env).ctl now =
      .ok (controlOutput (txrx s.app s.ctl env).app (txrx s.app s.ctl env).ctl now) := by
  constructor
  · rw [txrxChecked_spec]
    split_ifs
    · exact Or.inr rfl
    · exact Or.inl rfl
  · exact (controlOutputChecked_eq _ _ now
      (ctlBounds_txrx _ _ _ (ctlBounds_of_inv _ (ctlInv_reachable s h)))).1

theorem setPeriod_default : setPeriod (5 / 2) = { tv_sec := 2, tv_usec := 500000 } := by
  have hf : ⌊(5 / 2 : Rat)⌋ = 2 := by
    rw [Int.floor_eq_iff]; norm_num
  have hr : cRound 25 = 25 := cRound_eq _ 25 (by norm_num) (by norm_num) (by norm_num)
  simp only [setPeriod, toFloat_25, hf, hr]
  rfl

/-- The state `sampleSys` is the one with which `main` enters the loop when the program is
started without options and the log file can be opened. -/
theorem mainStartup_default : mainStartup 1 [] (some 3) 0 = .running sampleSys := by
  simp only [mainStartup, getSettings, getSettingsLoop, startupOf, DEFAULT_DEBUG,
    DEFAULT_LOG_NAME, DEFAULT_PERIOD_S, setPeriod_default, sampleSys]
  simp

theorem actuations_eq_map (log : List Event) :
    actuations log = (actuationEvents log).map Event.msg := by
  simp only [actuations, actuationEvents, List.filter_map]
  rfl

theorem idleCount_eq_length (log : List Event) : idleCount log = (idleEvents log).length := by
  simp only [idleCount, idleEvents, List.countP_eq_length_filter]

theorem events_of_sinks (l : List Event) (c f : Bool)
    (h : ∀ e ∈ l, e.console = c ∧ e.file = f) :
    l = (l.map Event.msg).map (fun m => { msg := m, console := c, file := f }) := by
  induction l with
  | nil => rfl
  | cons e l ih =>
    have he := h e (List.mem_cons_self _ _)
    have hl := ih (fun x hx => h x (List.mem_cons_of_mem _ hx))
    simp only [List.map_cons]
    rw [← hl]
    congr 1
    obtain ⟨m, c1, f1⟩ := e
    simp only at he
    obtain ⟨h1, h2⟩ := he
    subst h1 h2
    rfl

/-- The actuation events of a log are its actuation messages with the sinks that every one
of them has. -/
theorem actuationEvents_of_sinks (log : List Event) (f : Bool)
    (h : ∀ e ∈ log, (e.msg = .on ∨ e.msg = .off) → e.console = true ∧ e.file = f) :
    actuationEvents log =
      (actuations log).map (fun m => { msg := m, console := true, file := f }) := by
  rw [actuations_eq_map]
  apply events_of_sinks
  intro e he
  simp only [actuationEvents, List.mem_filter, decide_eq_true_eq] at he
  exact h e he.1 he.2

/-- The idle events of a log are as many copies of the one event that the sinks allow. -/
theorem idleEvents_of_sinks (log : List Event) (c f : Bool)
    (h : ∀ e ∈ log, e.msg = .noInputSequence → e.console = c ∧ e.file = f) :
    idleEvents log =
      List.replicate (idleCount log) { msg := .noInputSequence, console := c, file := f } := by
  rw [idleCount_eq_length]
  apply List.eq_replicate_of_mem
  intro e he
  simp only [idleEvents, List.mem_filter, decide_eq_true_eq] at he
  have := h e he.1 he.2
  cases e
  simp_all

theorem mem_of_actuations_nil (log : List Event) (h : actuations log = []) :
    ∀ e ∈ log, ¬ (e.msg = .on ∨ e.msg = .off) := by
  intro e he hm
  have : e.msg ∈ actuations log := by
    simp only [actuations, List.mem_filter, List.mem_map, decide_eq_true_eq]
    exact ⟨⟨e, he, rfl⟩, hm⟩
  rw [h] at this
  exact absurd this (List.not_mem_nil _)

theorem mem_of_idleCount_zero (log : List Event) (h : idleCount log = 0) :
    ∀ e ∈ log, e.msg ≠ .noInputSequence := by
  intro e he hm
  simp only [idleCount, List.countP_eq_zero, decide_eq_true_eq] at h
  exact h e he hm

/-- The sinks of the events of `controlOutput`: an actuation goes to the terminal, and to the
log file when `debug` is set and the file is open; the idle message goes to the terminal when
`debug` is set, and to the log file when `debug` is set and the file is open. -/
theorem controlOutput_sinks (app : AppStruct) (ctl : ControlStruct) (now : Int) :
    ∀ e ∈ (controlOutput app ctl now).2,
      (e.msg = .noInputSequence →
        e.console = app.debug ∧ e.file = (app.debug && app.logPointer.isSome)) ∧
      ((e.msg = .on ∨ e.msg = .off) →
        e.console = true ∧ e.file = (app.debug && app.logPointer.isSome)) := by
  intro e he
  simp only [controlOutput, logPrint] at he
  split_ifs at he <;> simp at he <;> (rcases he with h | h | h | h) <;> simp_all

/-- What `txrx` does to the flag `debug` and to the log file. -/
theorem txrx_debug (app : AppStruct) (ctl : ControlStruct) (env : Tick) :
    (txrx app ctl env).app.debug = (if togglesDebug env = true then !app.debug else app.debug) ∧
    (txrx app ctl env).app.logPointer = app.logPointer := by
  obtain ⟨sel, left, tRx, tOut⟩ := env
  cases sel with
  | error =>
    rw [txrx_error _ _ _ rfl]
    simp only [togglesDebug, armTimer, Bool.false_eq_true, if_false]
    split_ifs <;> exact ⟨rfl, rfl⟩
  | timeout =>
    rw [txrx_timeout _ _ _ rfl]
    simp only [togglesDebug, armTimer, Bool.false_eq_true, if_false]
    split_ifs <;> exact ⟨rfl, rfl⟩
  | ready stdin =>
    rcases line_cases stdin with hq | ⟨_, hb⟩ | ⟨_, b, x, r, hs, hb, hx, hbq⟩
    · rw [txrx_quit app ctl stdin left tRx tOut hq]
      simp [togglesDebug, hq, rxApp_debug, rxApp_logPointer]
    · rw [txrx_commit app ctl stdin left tRx tOut hb]
      have hd : (lineOf stdin).head? ≠ some 'd' := by
        rw [← storedLine_head]
        intro h
        have hm : 'd' ∈ storedLine stdin := List.mem_of_mem_head? h
        exact absurd (hb 'd' hm) (by decide)
      simp [togglesDebug, hd, rxApp_debug, rxApp_logPointer]
    · rw [txrx_reject app ctl stdin left tRx tOut b r x hs hb hx hbq]
      have hd := head_of_split stdin b r x hs hb
      by_cases h : x = 'd' ∧ b = []
      · simp [togglesDebug, hd.2 h, h, rxApp_logPointer]
      · have h2 : ¬ (lineOf stdin).head? = some 'd' := fun h3 => h (hd.1 h3)
        simp only [togglesDebug, h2, h, if_false, rxApp_logPointer]
        simp

/-- The sinks of the actuations and idle messages of one iteration, by the flag `debug` as the
iteration leaves it. -/
theorem loopBody_sinks (s : Sys) (env : Tick) :
    ∀ e ∈ (loopBody s env).2,
      (e.msg = .noInputSequence →
        e.console = debugAfter s.app.debug [env] ∧
        e.file = (debugAfter s.app.debug [env] && s.app.logPointer.isSome)) ∧
      ((e.msg = .on ∨ e.msg = .off) →
        e.console = true ∧
        e.file = (debugAfter s.app.debug [env] && s.app.logPointer.isSome)) := by
  have hq := txrx_log_quiet s.app s.ctl env
  have hd := txrx_debug s.app s.ctl env
  have h1 := mem_of_actuations_nil _ hq.1
  have h2 := mem_of_idleCount_zero _ hq.2
  have hda : debugAfter s.app.debug [env] = (txrx s.app s.ctl env).app.debug := by
    rw [hd.1]
    rfl
  intro e he
  have hquiet : e ∈ (txrx s.app s.ctl env).log →
      (e.msg = .noInputSequence →
        e.console = debugAfter s.app.debug [env] ∧
        e.file = (debugAfter s.app.debug [env] && s.app.logPointer.isSome)) ∧
      ((e.msg = .on ∨ e.msg = .off) →
        e.console = true ∧
        e.file = (debugAfter s.app.debug [env] && s.app.logPointer.isSome)) :=
    fun hm => ⟨fun h => absurd h (h2 e hm), fun h => absurd h (h1 e hm)⟩
  simp only [loopBody] at he
  split_ifs at he
  · exact hquiet he
  · exact hquiet he
  · simp only [List.mem_append] at he
    rcases he with he | he
    · exact hquiet he
    · have := controlOutput_sinks _ _ _ e he
      rw [hda, ← hd.2]
      exact this

theorem loopBody_state (s s1 : Sys) (env : Tick) (log : List Event)
    (h : loopBody s env = (.running s1, log)) :
    s1.app.debug = debugAfter s.app.debug [env] ∧ s1.app.logPointer = s.app.logPointer := by
  have hd := txrx_debug s.app s.ctl env
  simp only [loopBody] at h
  split_ifs at h
  · simp at h
  · simp at h
  · simp only [Prod.mk.injEq, Outcome.running.injEq] at h
    rw [← h.1]
    exact ⟨by rw [hd.1]; rfl, hd.2⟩

theorem debugAfter_cons (d : Bool) (t : Tick) (ticks : List Tick) :
    debugAfter d (t :: ticks) = debugAfter (debugAfter d [t]) ticks := rfl

/-- The sinks of the actuations and idle messages of iteration `k` of a run, by the flag
`debug` as that iteration leaves it. -/
theorem run_sinks (ticks : List Tick) (s : Sys) (k : Nat) (log : List Event)
    (h : (runLoop s ticks).2.get? k = some log) :
    ∀ e ∈ log,
      (e.msg = .noInputSequence →
        e.console = debugAfter s.app.debug (ticks.take (k + 1)) ∧
        e.file = (debugAfter s.app.debug (ticks.take (k + 1)) && s.app.logPointer.isSome)) ∧
      ((e.msg = .on ∨ e.msg = .off) →
        e.console = true ∧
        e.file = (debugAfter s.app.debug (ticks.take (k + 1)) && s.app.logPointer.isSome)) := by
  induction ticks generalizing s k with
  | nil => simp [runLoop] at h
  | cons t ticks ih =>
    cases hlb : loopBody s t with
    | mk o log0 =>
      have hs := loopBody_sinks s t
      rw [hlb] at hs
      cases o with
      | exited x =>
        simp only [runLoop, hlb] at h
        cases k with
        | zero =>
          simp only [List.get?_cons_zero, Option.some.injEq] at h
          rw [← h]
          simpa using hs
        | succ k => simp at h
      | running s1 =>
        simp only [runLoop, hlb] at h
        cases k with
        | zero =>
          simp only [List.get?_cons_zero, Option.some.injEq] at h
          rw [← h]
          simpa using hs
        | succ k =>
          simp only [List.get?_cons_succ] at h
          have hst := loopBody_state s s1 t log0 hlb
          have := ih s1 k h
          rw [hst.1, hst.2] at this
          rw [List.take_succ_cons, debugAfter_cons]
          exact this

theorem debugAfter_of_quiet (d : Bool) (ticks : List Tick)
    (h : ∀ t ∈ ticks, togglesDebug t = false) : debugAfter d ticks = d := by
  induction ticks generalizing d with
  | nil => rfl
  | cons t ticks ih =>
    rw [debugAfter_cons, ih _ (fun u hu => h u (List.mem_cons_of_mem _ hu))]
    simp only [debugAfter, List.foldl, h t (List.mem_cons_self _ _), Bool.false_eq_true,
      if_false]

/-- From the counts and the sinks of the idle messages of a run to the idle events. -/
theorem run_idleEvents (s : Sys) (ticks : List Tick) (n : Nat) (f : Nat → Nat)
    (hc : (runLoop s ticks).2.map idleCount = (List.range n).map f) :
    (runLoop s ticks).2.map idleEvents =
      (List.range n).map (fun k => List.replicate (f k)
        { msg := .noInputSequence
          console := debugAfter s.app.debug (ticks.take (k + 1))
          file := debugAfter s.app.debug (ticks.take (k + 1)) && s.app.logPointer.isSome }) := by
  apply List.ext_get?
  intro k
  have hk := congrArg (fun l => l.get? k) hc
  simp only [List.get?_eq_getElem?, List.getElem?_map] at hk ⊢
  cases hl : (runLoop s ticks).2[k]? with
  | none =>
    rw [hl] at hk
    cases hr : (List.range n)[k]? with
    | none => simp
    | some j => rw [hr] at hk; simp at hk
  | some log =>
    rw [hl] at hk
    cases hr : (List.range n)[k]? with
    | none => rw [hr] at hk; simp at hk
    | some j =>
      rw [hr] at hk
      simp only [Option.map_some', Option.some.injEq] at hk ⊢
      have hj : j = k := by
        rw [List.getElem?_range] at hr
        · simpa using hr.symm
        · by_contra hn
          rw [List.getElem?_eq_none (by simpa using hn)] at hr
          simp at hr
      subst hj
      have hsk := run_sinks ticks s j log (by rw [List.get?_eq_getElem?]; exact hl)
      rw [idleEvents_of_sinks log _ _ (fun e he => (hsk e he).1), hk]

/-- From the messages and the sinks of the actuations of a run to the actuation events. -/
theorem run_actuationEvents (s : Sys) (ticks : List Tick) (n : Nat) (f : Nat → List Msg)
    (hc : (runLoop s ticks).2.map actuations = (List.range n).map f) :
    (runLoop s ticks).2.map actuationEvents =
      (List.range n).map (fun k => (f k).map (fun m =>
        { msg := m
          console := true
          file := debugAfter s.app.debug (ticks.take (k + 1)) && s.app.logPointer.isSome })) := by
  apply List.ext_get?
  intro k
  have hk := congrArg (fun l => l.get? k) hc
  simp only [List.get?_eq_getElem?, List.getElem?_map] at hk ⊢
  cases hl : (runLoop s ticks).2[k]? with
  | none =>
    rw [hl] at hk
    cases hr : (List.range n)[k]? with
    | none => simp
    | some j => rw [hr] at hk; simp at hk
  | some log =>
    rw [hl] at hk
    cases hr : (List.range n)[k]? with
    | none => rw [hr] at hk; simp at hk
    | some j =>
      rw [hr] at hk
      simp only [Option.map_some', Option.some.injEq] at hk ⊢
      have hj : j = k := by
        rw [List.getElem?_range] at hr
        · simpa using hr.symm
        · by_contra hn
          rw [List.getElem?_eq_none (by simpa using hn)] at hr
          simp at hr
      subst hj
      have hsk := run_sinks ticks s j log (by rw [List.get?_eq_getElem?]; exact hl)
      rw [actuationEvents_of_sinks log _ (fun e he => (hsk e he).2), hk]

theorem togglesDebug_timeout (t : Tick) (h : t.sel = .timeout) : togglesDebug t = false := by
  simp [togglesDebug, h]

theorem togglesDebug_bits (stdin : List Char) (left : Timeval) (tRx tOut : Int)
    (hbits : ∀ c ∈ lineOf stdin, isBit c = true) :
    togglesDebug { sel := .ready stdin, left := left, tRx := tRx, tOut := tOut } = false := by
  have hd : (lineOf stdin).head? ≠ some 'd' := by
    intro h
    exact absurd (hbits 'd' (List.mem_of_mem_head? h)) (by decide)
  simp [togglesDebug, hd]

theorem replicate_ite (c : Prop) [Decidable c] (e : Event) :
    List.replicate (if c then 1 else 0) e = if c then [e] else [] := by
  split_ifs <;> rfl

/-- The sinks of the buffer-full warning: the terminal when `debug` is set, the log file when
`debug` is set and the file is open. -/
theorem txrx_warn_sinks (app : AppStruct) (ctl : ControlStruct) (env : Tick) :
    ∀ e ∈ (txrx app ctl env).log, e.msg = .bufferFull →
      e.console = app.debug ∧ e.file = (app.debug && app.logPointer.isSome) := by
  obtain ⟨sel, left, tRx, tOut⟩ := env
  cases sel with
  | error =>
    rw [txrx_error _ _ _ rfl]
    intro e he hm
    simp only [logPrint, List.mem_singleton] at he
    rw [he] at hm
    exact absurd hm (by simp)
  | timeout =>
    rw [txrx_timeout _ _ _ rfl]
    intro e he
    exact absurd he (List.not_mem_nil _)
  | ready stdin =>
    rcases line_cases stdin with hq | ⟨_, hb⟩ | ⟨_, b, x, r, hs, hb, hx, hbq⟩
    · rw [txrx_quit app ctl stdin left tRx tOut hq]
      intro e he hm
      simp only [logPrint, List.mem_singleton] at he
      rw [he] at hm
      exact absurd hm (by simp)
    · rw [txrx_commit app ctl stdin left tRx tOut hb]
      intro e he hm
      simp only [logPrint, rxApp_debug, rxApp_logPointer, List.mem_append] at he
      rcases he with he | he
      · split_ifs at he
        · simp only [List.mem_singleton] at he
          rw [he]
          exact ⟨by simp, rfl⟩
        · exact absurd he (List.not_mem_nil _)
      · split_ifs at he
        · simp only [List.mem_append, List.mem_singleton] at he
          rcases he with he | he <;> (rw [he] at hm; exact absurd hm (by simp))
        · exact absurd he (List.not_mem_nil _)
    · rw [txrx_reject app ctl stdin left tRx tOut b r x hs hb hx hbq]
      intro e he hm
      simp only [logPrint, rxApp_debug, rxApp_logPointer, List.mem_append] at he
      rcases he with he | he
      · split_ifs at he
        · simp only [List.mem_singleton] at he
          rw [he]
          exact ⟨by simp, rfl⟩
        · exact absurd he (List.not_mem_nil _)
      · split_ifs at he
        · exact absurd he (List.not_mem_nil _)
        · simp only [List.mem_singleton] at he
          rw [he] at hm
          exact absurd hm (by simp)

/-- The option `-t 1000.05`: the `float` is just below 1000.05, the product `period*10`
rounds in `float` to 10000.5, and `round` takes it up to 10001, so that the tenths digit is
1 although the period rounded to the nearest tenth is 1000.0. -/
theorem setPeriod_1000_05 :
    toFloat (100005 / 100) = 16384819 / 16384 ∧
    toFloat (16384819 / 16384 * 10) = 20001 / 2 ∧
    setPeriod (toFloat (100005 / 100)) = { tv_sec := 1000, tv_usec := 100000 } := by
  have h1 : toFloat (100005 / 100) = 16384819 / 16384 := by
    rw [toFloat_eq (100005 / 100) 9 16384819 (by norm_num) (by norm_num) (by norm_num)
      (by norm_num) (by norm_num) (by norm_num)]
    norm_num
  have h2 : toFloat (16384819 / 16384 * 10) = 20001 / 2 := by
    rw [toFloat_eq (16384819 / 16384 * 10) 13 10240512 (by norm_num) (by norm_num)
      (by norm_num) (by norm_num) (by norm_num) (by norm_num)]
    norm_num
  have hf : ⌊(16384819 / 16384 : Rat)⌋ = 1000 := by
    rw [Int.floor_eq_iff]; norm_num
  have hr : cRound (20001 / 2) = 10001 :=
    cRound_eq _ 10001 (by norm_num) (by norm_num) (by norm_num)
  refine ⟨h1, h2, ?_⟩
  simp only [setPeriod, h1, h2, hf, hr]
  rfl

/-! # The claims -/

/-- C1: for every prior state and every ready line of L <= MAX_BUFFER_LEN-1 bits, followed by
any number of timed-out iterations: the loop keeps running, iteration k (the commit iteration
being iteration 0) emits exactly the actuation of bit k when k < L (`[ON]` for `1`, `[OFF]`
for `0`) and no actuation when k >= L, and the idle message is logged in iteration L and in no
other.  Every actuation is written to the terminal, and to the log file when `debug` is set
and the file is open; the idle message is written to the terminal when `debug` is set, and to
the log file when `debug` is set and the file is open. -/
theorem C1_sequence_played (s : Sys) (stdin : List Char) (left : Timeval) (tRx tOut : Int)
    (rest : List Tick)
    (hbits : ∀ c ∈ lineOf stdin, isBit c = true)
    (hlen : (lineOf stdin).length ≤ MAX_BUFFER_LEN - 1)
    (hrest : ∀ t ∈ rest, t.sel = .timeout) :
    ∃ s1,
      (runLoop s ({ sel := .ready stdin, left := left, tRx := tRx, tOut := tOut } :: rest)).1
        = .running s1 ∧
      (runLoop s
          ({ sel := .ready stdin, left := left, tRx := tRx, tOut := tOut } :: rest)).2.map
          actuations =
        (List.range (rest.length + 1)).map
          (fun k => ((lineOf stdin).get? k).toList.map bitMsg) ∧
      (runLoop s
          ({ sel := .ready stdin, left := left, tRx := tRx, tOut := tOut } :: rest)).2.map
          idleCount =
        (List.range (rest.length + 1)).map
          (fun k => if k = (lineOf stdin).length then 1 else 0) ∧
      (runLoop s
          ({ sel := .ready stdin, left := left, tRx := tRx, tOut := tOut } :: rest)).2.map
          actuationEvents =
        (List.range (rest.length + 1)).map
          (fun k => ((lineOf stdin).get? k).toList.map
            (fun c =>
              { msg := bitMsg c, console := true
                file := s.app.debug && s.app.logPointer.isSome })) ∧
      (runLoop s
          ({ sel := .ready stdin, left := left, tRx := tRx, tOut := tOut } :: rest)).2.map
          idleEvents =
        (List.range (rest.length + 1)).map
          (fun k =>
            if k = (lineOf stdin).length then
              [{ msg := .noInputSequence, console := s.app.debug
                 file := s.app.debug && s.app.logPointer.isSome }]
            else []) := by
  have key : ∃ s1,
      (runLoop s ({ sel := .ready stdin, left := left, tRx := tRx, tOut := tOut } :: rest)).1
        = .running s1 ∧
      (runLoop s
          ({ sel := .ready stdin, left := left, tRx := tRx, tOut := tOut } :: rest)).2.map
          actuations =
        (List.range (rest.length + 1)).map
          (fun k => ((lineOf stdin).get? k).toList.map bitMsg) ∧
      (runLoop s
          ({ sel := .ready stdin, left := left, tRx := tRx, tOut := tOut } :: rest)).2.map
          idleCount =
        (List.range (rest.length + 1)).map
          (fun k => if k = (lineOf stdin).length then 1 else 0) := by
    have hs := storedLine_short stdin hlen
    have hb : ∀ c ∈ storedLine stdin, isBit c = true := by rw [hs]; exact hbits
    have hr := txrx_commit s.app s.ctl stdin left tRx tOut hb
    rw [hs] at hr
    have hret : (txrx s.app s.ctl
        { sel := .ready stdin, left := left, tRx := tRx, tOut := tOut }).ret = 0 := by rw [hr]
    have hbd := controlOutput_boundary
      (txrx s.app s.ctl { sel := .ready stdin, left := left, tRx := tRx, tOut := tOut }).app
      (txrx s.app s.ctl { sel := .ready stdin, left := left, tRx := tRx, tOut := tOut }).ctl tOut
      (lineOf stdin) (List.replicate (MAX_BUFFER_LEN - (lineOf stdin).length) NUL) 0
      (by rw [hr]) (by rw [hr]) (by rw [hr]) (by rw [hr]; rfl)
    have hev := loopBody_events s
      { sel := .ready stdin, left := left, tRx := tRx, tOut := tOut } hret
    have hlb := loopBody_running s
      { sel := .ready stdin, left := left, tRx := tRx, tOut := tOut } hret
    rw [runLoop_cons_running s _ rest _ _ hlb]
    obtain ⟨s1, h1, h2, h3⟩ := run_timeouts (lineOf stdin)
      (List.replicate (MAX_BUFFER_LEN - (lineOf stdin).length) NUL) rest hrest
      { app := (txrx s.app s.ctl
          { sel := .ready stdin, left := left, tRx := tRx, tOut := tOut }).app
        ctl := (controlOutput (txrx s.app s.ctl
          { sel := .ready stdin, left := left, tRx := tRx, tOut := tOut }).app
          (txrx s.app s.ctl { sel := .ready stdin, left := left, tRx := tRx, tOut := tOut }).ctl
          tOut).1 } 1
      (by rw [hbd.1, hr]) (by rw [hbd.1, hr]) (by rw [hbd.1, hr]; simp)
    refine ⟨s1, h1, ?_, ?_⟩
    · rw [loopBody_running s _ hret] at hev
      simp only [List.map_cons, h2, hev.1, hbd.2.1, List.range_succ_eq_map, List.map_map]
      congr 1
      apply List.map_congr_left
      intro k _
      simp only [Function.comp, Nat.add_comm 1 k, Nat.succ_eq_add_one]
    · rw [loopBody_running s _ hret] at hev
      simp only [List.map_cons, h3, hev.2, hbd.2.2, List.range_succ_eq_map, List.map_map]
      congr 1
      apply List.map_congr_left
      intro k _
      simp only [Function.comp, Nat.add_comm 1 k, Nat.succ_eq_add_one]
  obtain ⟨s1, h1, h2, h3⟩ := key
  have hquiet : ∀ k, debugAfter s.app.debug
      (({ sel := .ready stdin, left := left, tRx := tRx, tOut := tOut } :: rest).take (k + 1))
        = s.app.debug := by
    intro k
    apply debugAfter_of_quiet
    intro t ht
    rcases List.mem_cons.1 (List.mem_of_mem_take ht) with h | h
    · rw [h]
      exact togglesDebug_bits stdin left tRx tOut hbits
    · exact togglesDebug_timeout t (hrest t h)
  refine ⟨s1, h1, h2, h3, ?_, ?_⟩
  · rw [run_actuationEvents s _ _ _ h2]
    apply List.map_congr_left
    intro k _
    rw [hquiet k, List.map_map]
    rfl
  · rw [run_idleEvents s _ _ _ h3]
    apply List.map_congr_left
    intro k _
    rw [hquiet k, replicate_ite]

/-- C1 on the line `0101` followed by five time-outs, with `debug` set and the log file open:
OFF, ON, OFF, ON, each on the terminal and in the log file, then the idle message, then
silence. -/
theorem C1_sequence_played_witness :
    ∃ s1,
      (runLoop sampleSys
        (readyTick ['0', '1', '0', '1', '\n'] :: List.replicate 5 timeoutTick)).1
        = .running s1 ∧
      (runLoop sampleSys
        (readyTick ['0', '1', '0', '1', '\n'] :: List.replicate 5 timeoutTick)).2.map actuations
        = [[.off], [.on], [.off], [.on], [], []] ∧
      (runLoop sampleSys
        (readyTick ['0', '1', '0', '1', '\n'] :: List.replicate 5 timeoutTick)).2.map idleCount
        = [0, 0, 0, 0, 1, 0] ∧
      (runLoop sampleSys
        (readyTick ['0', '1', '0', '1', '\n'] :: List.replicate 5 timeoutTick)).2.map
          actuationEvents
        = [[{ msg := .off, console := true, file := true }],
           [{ msg := .on, console := true, file := true }],
           [{ msg := .off, console := true, file := true }],
           [{ msg := .on, console := true, file := true }], [], []] ∧
      (runLoop sampleSys
        (readyTick ['0', '1', '0', '1', '\n'] :: List.replicate 5 timeoutTick)).2.map idleEvents
        = [[], [], [], [], [{ msg := .noInputSequence, console := true, file := true }], []] := by
  have h := C1_sequence_played sampleSys ['0', '1', '0', '1', '\n']
    { tv_sec := 1, tv_usec := 0 } 10 11 (List.replicate 5 timeoutTick)
    (by decide) (by decide) (by decide)
  exact h



/-- C2: for every prior state and every ready line of L <= MAX_BUFFER_LEN-1 bits (the empty
line included), `txrx` returns 0 and replaces the control state: `controlSequence` is the line
followed by NUL bytes, `numberOfPeriods = L`, `periodCounter = 0`, the clock reading is stored
in `timeKeeper`, and `updateTimer = true`, so that the next call reloads `timeout` from
`period`. -/
theorem C2_valid_line_commits (app : AppStruct) (ctl : ControlStruct) (stdin : List Char)
    (left : Timeval) (tRx tOut : Int)
    (hbits : ∀ c ∈ lineOf stdin, isBit c = true)
    (hlen : (lineOf stdin).length ≤ MAX_BUFFER_LEN - 1) :
    (txrx app ctl { sel := .ready stdin, left := left, tRx := tRx, tOut := tOut }).ret = 0 ∧
    (txrx app ctl { sel := .ready stdin, left := left, tRx := tRx, tOut := tOut }).ctl =
      { cyclePeriod := ctl.cyclePeriod
        controlSequence :=
          lineOf stdin ++ List.replicate (MAX_BUFFER_LEN - (lineOf stdin).length) NUL
        numberOfPeriods := (lineOf stdin).length
        periodCounter := 0 } ∧
    (txrx app ctl { sel := .ready stdin, left := left, tRx := tRx, tOut := tOut }).app.updateTimer
      = true ∧
    (txrx app ctl { sel := .ready stdin, left := left, tRx := tRx, tOut := tOut }).app.timeKeeper
      = tRx ∧
    (armTimer
      (txrx app ctl { sel := .ready stdin, left := left, tRx := tRx, tOut := tOut }).app).timeout
      = app.period := by
  have hs := storedLine_short stdin hlen
  have hb : ∀ c ∈ storedLine stdin, isBit c = true := by rw [hs]; exact hbits
  rw [txrx_commit app ctl stdin left tRx tOut hb, hs]
  refine ⟨rfl, rfl, rfl, rfl, ?_⟩
  rw [armTimer_timeout]
  simp [rxApp_period]

/-- C2 on the line `0101` received in the initial state of `main`. -/
theorem C2_valid_line_commits_witness :
    (txrx sampleSys.app sampleSys.ctl (readyTick ['0', '1', '0', '1', '\n'])).ret = 0 ∧
    (txrx sampleSys.app sampleSys.ctl (readyTick ['0', '1', '0', '1', '\n'])).ctl =
      { cyclePeriod := 5 / 2
        controlSequence := ['0', '1', '0', '1'] ++ List.replicate 97 NUL
        numberOfPeriods := 4
        periodCounter := 0 } ∧
    (txrx sampleSys.app sampleSys.ctl (readyTick ['0', '1', '0', '1', '\n'])).app.updateTimer
      = true := by
  have h := C2_valid_line_commits sampleSys.app sampleSys.ctl ['0', '1', '0', '1', '\n']
    { tv_sec := 1, tv_usec := 0 } 10 11 (by decide) (by decide)
  exact ⟨h.1, h.2.1, h.2.2.1⟩

/-- C3, as stated, fails: the line of one hundred `'0'` followed by `'x'` does not start with
`q` or `d` and contains a character that is not a bit, yet `txrx` commits its first hundred
characters, sets `updateTimer`, and `controlOutput` emits an actuation in that iteration. -/
theorem C3_counterexample :
    (lineOf longLine).head? ≠ some 'q' ∧ (lineOf longLine).head? ≠ some 'd' ∧
    (∃ c ∈ lineOf longLine, isBit c = false) ∧
    (txrx sampleSys.app sampleSys.ctl (readyTick longLine)).ctl ≠ sampleSys.ctl ∧
    (txrx sampleSys.app sampleSys.ctl (readyTick longLine)).app.updateTimer = true ∧
    actuations (loopBody sampleSys (readyTick longLine)).2 = [.off] := by
  have hb : ∀ c ∈ storedLine longLine, isBit c = true := by
    rw [storedLine_longLine]
    intro c hc
    rw [(List.mem_replicate.1 hc).2]
    rfl
  have hl := lineOf_longLine
  have ht := txrx_commit sampleSys.app sampleSys.ctl longLine
    { tv_sec := 1, tv_usec := 0 } 10 11 hb
  have hret : (txrx sampleSys.app sampleSys.ctl
      { sel := .ready longLine, left := { tv_sec := 1, tv_usec := 0 }, tRx := 10,
        tOut := 11 }).ret = 0 := by rw [ht]
  have hev := (loopBody_events sampleSys
      { sel := .ready longLine, left := { tv_sec := 1, tv_usec := 0 }, tRx := 10,
        tOut := 11 } hret).1
  simp only [readyTick]
  rw [hev, ht]
  refine ⟨?_, ?_, ?_, ?_, rfl, ?_⟩
  · rw [hl]; simp [List.replicate_succ]
  · rw [hl]; simp [List.replicate_succ]
  · exact ⟨'x', by rw [hl]; simp, by decide⟩
  · intro h
    have h2 := congrArg ControlStruct.periodCounter h
    simp [sampleSys, mainInit] at h2
  · rw [(controlOutput_boundary _ _ 11 (storedLine longLine) _ 0 rfl rfl rfl rfl).2.1]
    rw [storedLine_longLine]
    rfl

/-- C3 (amended): for every prior state and every ready line (the characters that `txrx` reads
before it leaves its loop, `lineOf`) whose first character is neither `q` nor `d` and whose
first MAX_BUFFER_LEN-1 characters contain a character other than `0` and `1`: `txrx` returns 0 and leaves the `ControlStruct` unchanged, `updateTimer` is false, so the
next call keeps the `timeout` left by `select`, and `controlOutput` changes nothing and emits
nothing in that iteration. -/
theorem C3_invalid_line_rejected (app : AppStruct) (ctl : ControlStruct) (stdin : List Char)
    (left : Timeval) (tRx tOut : Int)
    (hq : (lineOf stdin).head? ≠ some 'q') (hd : (lineOf stdin).head? ≠ some 'd')
    (hbad : ∃ c ∈ (lineOf stdin).take (MAX_BUFFER_LEN - 1), isBit c = false) :
    (txrx app ctl { sel := .ready stdin, left := left, tRx := tRx, tOut := tOut }).ret = 0 ∧
    (txrx app ctl { sel := .ready stdin, left := left, tRx := tRx, tOut := tOut }).ctl = ctl ∧
    (txrx app ctl { sel := .ready stdin, left := left, tRx := tRx, tOut := tOut }).app.updateTimer
      = false ∧
    (armTimer
      (txrx app ctl { sel := .ready stdin, left := left, tRx := tRx, tOut := tOut }).app).timeout
      = left ∧
    controlOutput
      (txrx app ctl { sel := .ready stdin, left := left, tRx := tRx, tOut := tOut }).app
      (txrx app ctl { sel := .ready stdin, left := left, tRx := tRx, tOut := tOut }).ctl tOut
      = (ctl, []) ∧
    actuations
      (loopBody { app := app, ctl := ctl }
        { sel := .ready stdin, left := left, tRx := tRx, tOut := tOut }).2 = [] := by
  obtain ⟨b, x, r, hs, hb, hx, hbq⟩ := split_of_nonbit stdin hq hbad
  have hnd : ¬ (x = 'd' ∧ b = []) := fun h => hd ((head_of_split stdin b r x hs hb).2 h)
  have ht := txrx_reject app ctl stdin left tRx tOut b r x hs hb hx hbq
  have hret : (txrx app ctl
      { sel := .ready stdin, left := left, tRx := tRx, tOut := tOut }).ret = 0 := by rw [ht]
  have hev := (loopBody_events { app := app, ctl := ctl }
    { sel := .ready stdin, left := left, tRx := tRx, tOut := tOut } hret).1
  rw [hev, ht]
  refine ⟨rfl, rfl, rfl, ?_, ?_, ?_⟩
  · rw [armTimer_timeout]; rfl
  · exact controlOutput_off _ _ _ rfl
  · rw [controlOutput_off _ _ _ rfl]; rfl

/-- C3 (amended) on the line `0x1` received in the initial state of `main`. -/
theorem C3_invalid_line_rejected_witness :
    (txrx sampleSys.app sampleSys.ctl (readyTick ['0', 'x', '1', '\n'])).ctl = sampleSys.ctl ∧
    (txrx sampleSys.app sampleSys.ctl (readyTick ['0', 'x', '1', '\n'])).app.updateTimer
      = false ∧
    actuations (loopBody sampleSys (readyTick ['0', 'x', '1', '\n'])).2 = [] := by
  have h := C3_invalid_line_rejected sampleSys.app sampleSys.ctl ['0', 'x', '1', '\n']
    { tv_sec := 1, tv_usec := 0 } 10 11 (by decide) (by decide) ⟨'x', by decide, by decide⟩
  exact ⟨h.2.1, h.2.2.1, h.2.2.2.2.2⟩

/-- C4: for every state and every ready line, `txrx` returns 1 if and only if the first
character of the line is `q`, whatever follows; in that case the `ControlStruct`, `debug` and
`logPointer` are unchanged, and the loop of `main` ends through `terminateApp` with
`EXIT_SUCCESS`, the log file being closed exactly when `logPointer` is not `NULL`. -/
theorem C4_quit_iff_first_q (app : AppStruct) (ctl : ControlStruct) (stdin : List Char)
    (left : Timeval) (tRx tOut : Int) :
    ((txrx app ctl { sel := .ready stdin, left := left, tRx := tRx, tOut := tOut }).ret = 1 ↔
      (lineOf stdin).head? = some 'q') ∧
    ((lineOf stdin).head? = some 'q' →
      (txrx app ctl { sel := .ready stdin, left := left, tRx := tRx, tOut := tOut }).ctl = ctl ∧
      (txrx app ctl { sel := .ready stdin, left := left, tRx := tRx, tOut := tOut }).app.debug
        = app.debug ∧
      (txrx app ctl { sel := .ready stdin, left := left, tRx := tRx, tOut := tOut }).app.logPointer
        = app.logPointer ∧
      (loopBody { app := app, ctl := ctl }
        { sel := .ready stdin, left := left, tRx := tRx, tOut := tOut }).1
        = .exited { status := EXIT_SUCCESS, closed := app.logPointer.isSome }) := by
  constructor
  · rw [txrx_ret_ready]
    split_ifs with h <;> simp [h]
  · intro hq
    simp only [loopBody]
    rw [txrx_quit app ctl stdin left tRx tOut hq]
    refine ⟨rfl, rxApp_debug app left, rxApp_logPointer app left, ?_⟩
    simp [terminateApp, rxApp_logPointer]

/-- C4 on the lines `q1x` (quits, the open log file is closed) and `1q` (does not quit). -/
theorem C4_quit_iff_first_q_witness :
    (txrx sampleSys.app sampleSys.ctl (readyTick ['q', '1', 'x', '\n'])).ret = 1 ∧
    (loopBody sampleSys (readyTick ['q', '1', 'x', '\n'])).1
      = .exited { status := 0, closed := true } ∧
    (txrx sampleSys.app sampleSys.ctl (readyTick ['1', 'q', '\n'])).ret ≠ 1 := by
  have h := C4_quit_iff_first_q sampleSys.app sampleSys.ctl ['q', '1', 'x', '\n']
    { tv_sec := 1, tv_usec := 0 } 10 11
  have h2 := C4_quit_iff_first_q sampleSys.app sampleSys.ctl ['1', 'q', '\n']
    { tv_sec := 1, tv_usec := 0 } 10 11
  refine ⟨h.1.2 (by decide), (h.2 (by decide)).2.2.2, fun h3 => ?_⟩
  exact absurd (h2.1.1 h3) (by decide)

/-- C5: for every state and every ready line: if the line starts with `d`, `txrx` negates
`debug` once (whatever follows), leaves the `ControlStruct` unchanged, logs no
"Invalid control sequence received", returns 0 and clears `updateTimer`, so the next call keeps
the `timeout` left by `select`; if the line does not start with `d`, `debug` is unchanged. -/
theorem C5_debug_toggle (app : AppStruct) (ctl : ControlStruct) (stdin : List Char)
    (left : Timeval) (tRx tOut : Int) :
    ((lineOf stdin).head? = some 'd' →
      (txrx app ctl { sel := .ready stdin, left := left, tRx := tRx, tOut := tOut }).app.debug
        = (!app.debug) ∧
      (txrx app ctl { sel := .ready stdin, left := left, tRx := tRx, tOut := tOut }).ctl = ctl ∧
      invalidCount
        (txrx app ctl { sel := .ready stdin, left := left, tRx := tRx, tOut := tOut }).log = 0 ∧
      (txrx app ctl { sel := .ready stdin, left := left, tRx := tRx, tOut := tOut }).ret = 0 ∧
      (txrx app ctl
        { sel := .ready stdin, left := left, tRx := tRx, tOut := tOut }).app.updateTimer = false ∧
      (armTimer (txrx app ctl
        { sel := .ready stdin, left := left, tRx := tRx, tOut := tOut }).app).timeout = left) ∧
    ((lineOf stdin).head? ≠ some 'd' →
      (txrx app ctl { sel := .ready stdin, left := left, tRx := tRx, tOut := tOut }).app.debug
        = app.debug) := by
  constructor
  · intro hd
    have hq : (lineOf stdin).head? ≠ some 'q' := by rw [hd]; decide
    have hbad : ∃ c ∈ storedLine stdin, isBit c = false := by
      refine ⟨'d', ?_, by decide⟩
      have h := storedLine_head stdin
      rw [hd] at h
      exact List.mem_of_mem_head? h
    obtain ⟨b, x, r, hs, hb, hx, hbq⟩ := split_of_nonbit stdin hq hbad
    have hxd : x = 'd' ∧ b = [] := (head_of_split stdin b r x hs hb).1 hd
    rw [txrx_reject app ctl stdin left tRx tOut b r x hs hb hx hbq]
    obtain ⟨hx1, hb1⟩ := hxd
    subst hx1 hb1
    refine ⟨by simp, rfl, ?_, rfl, rfl, ?_⟩
    · simp [invalidCount, MAX_BUFFER_LEN]
    · rw [armTimer_timeout]; rfl
  · intro hd
    rcases line_cases stdin with hq | ⟨hq, hb⟩ | ⟨hq, b, x, r, hs, hb, hx, hbq⟩
    · rw [txrx_quit app ctl stdin left tRx tOut hq]; exact rxApp_debug app left
    · rw [txrx_commit app ctl stdin left tRx tOut hb]; exact rxApp_debug app left
    · have hnd : ¬ (x = 'd' ∧ b = []) := fun h => hd ((head_of_split stdin b r x hs hb).2 h)
      rw [txrx_reject app ctl stdin left tRx tOut b r x hs hb hx hbq]
      simp only [hnd, if_false]

/-- C5 on the lines `dd1` (one toggle, from on to off) and `1d` (no toggle). -/
theorem C5_debug_toggle_witness :
    (txrx sampleSys.app sampleSys.ctl (readyTick ['d', 'd', '1', '\n'])).app.debug = false ∧
    (txrx sampleSys.app sampleSys.ctl (readyTick ['d', 'd', '1', '\n'])).ctl = sampleSys.ctl ∧
    (txrx sampleSys.app sampleSys.ctl (readyTick ['1', 'd', '\n'])).app.debug = true := by
  have h := C5_debug_toggle sampleSys.app sampleSys.ctl ['d', 'd', '1', '\n']
    { tv_sec := 1, tv_usec := 0 } 10 11
  have h2 := C5_debug_toggle sampleSys.app sampleSys.ctl ['1', 'd', '\n']
    { tv_sec := 1, tv_usec := 0 } 10 11
  exact ⟨(h.1 (by decide)).1, (h.1 (by decide)).2.1, h2.2 (by decide)⟩

/-- C7, as stated, fails: the state with which `main` enters the loop is reachable and has
`periodCounter = 1 > 0 = numberOfPeriods`. -/
theorem C7_counterexample :
    Reachable sampleSys ∧ ¬ (sampleSys.ctl.periodCounter ≤ sampleSys.ctl.numberOfPeriods) :=
  ⟨⟨_, [], rfl⟩, by decide⟩

/-- C7 (amended): in every state reachable by the loop of `main`, the cursor satisfies
`0 <= periodCounter <= numberOfPeriods + 1`. -/
theorem C7_cursor_bounds (s : Sys) (h : Reachable s) :
    0 ≤ s.ctl.periodCounter ∧ s.ctl.periodCounter ≤ s.ctl.numberOfPeriods + 1 :=
  ⟨(ctlInv_reachable s h).2.2.1, (ctlInv_reachable s h).2.2.2.1⟩

/-- C7 (amended) on the state reached after the line `10` and two time-outs. -/
theorem C7_cursor_bounds_witness :
    0 ≤ sampleAfter.ctl.periodCounter ∧
      sampleAfter.ctl.periodCounter ≤ sampleAfter.ctl.numberOfPeriods + 1 :=
  C7_cursor_bounds sampleAfter sampleAfter_reachable

/-- C8: in every state reachable by the loop of `main`, every byte of `controlSequence` at an
index below `numberOfPeriods` is `'0'` or `'1'`. -/
theorem C8_sequence_bits (s : Sys) (h : Reachable s) (i : Nat)
    (hi : (i : Int) < s.ctl.numberOfPeriods) :
    s.ctl.controlSequence.get? i = some '0' ∨ s.ctl.controlSequence.get? i = some '1' :=
  (ctlInv_reachable s h).2.2.2.2 i hi

/-- C8 on the state reached after the line `10` and two time-outs, at index 1. -/
theorem C8_sequence_bits_witness :
    sampleAfter.ctl.numberOfPeriods = 2 ∧
    (sampleAfter.ctl.controlSequence.get? 1 = some '0' ∨
      sampleAfter.ctl.controlSequence.get? 1 = some '1') :=
  ⟨by decide, C8_sequence_bits sampleAfter sampleAfter_reachable 1 (by decide)⟩

/-- C9: for every prior state and every ready line, the whole result of `txrx` (return value,
both structs, events) equals the result for the line cut after its first MAX_BUFFER_LEN-1
characters; a longer line whose first MAX_BUFFER_LEN-1 characters are bits commits exactly
those characters, with `numberOfPeriods = MAX_BUFFER_LEN-1`. -/
theorem C9_truncation (app : AppStruct) (ctl : ControlStruct) (stdin : List Char)
    (left : Timeval) (tRx tOut : Int) :
    txrx app ctl { sel := .ready stdin, left := left, tRx := tRx, tOut := tOut } =
      txrx app ctl
        { sel := .ready ((lineOf stdin).take (MAX_BUFFER_LEN - 1)), left := left, tRx := tRx
          tOut := tOut } ∧
    (MAX_BUFFER_LEN - 1 < (lineOf stdin).length →
      (∀ c ∈ (lineOf stdin).take (MAX_BUFFER_LEN - 1), isBit c = true) →
      (txrx app ctl { sel := .ready stdin, left := left, tRx := tRx, tOut := tOut }).ret = 0 ∧
      (txrx app ctl { sel := .ready stdin, left := left, tRx := tRx, tOut := tOut }).ctl =
        { cyclePeriod := ctl.cyclePeriod
          controlSequence := (lineOf stdin).take (MAX_BUFFER_LEN - 1) ++ [NUL]
          numberOfPeriods := 100
          periodCounter := 0 }) := by
  constructor
  · rw [txrx_ready, txrx_ready, scanLine_storedLine stdin,
      scanLine_storedLine ((lineOf stdin).take (MAX_BUFFER_LEN - 1))]
    have h := storedLine_idem stdin
    simp only [storedLine] at h ⊢
    rw [h]
  · intro hlen hb
    rw [txrx_commit app ctl stdin left tRx tOut hb]
    have hl : (storedLine stdin).length = 100 := by
      simp only [storedLine, List.length_take, MAX_BUFFER_LEN] at hlen ⊢
      omega
    refine ⟨rfl, ?_⟩
    simp only [hl, MAX_BUFFER_LEN]
    rfl

/-- C9 on the line of one hundred `0` followed by `x`: the hundred bits are committed. -/
theorem C9_truncation_witness :
    (txrx sampleSys.app sampleSys.ctl (readyTick longLine)).ret = 0 ∧
    (txrx sampleSys.app sampleSys.ctl (readyTick longLine)).ctl.numberOfPeriods = 100 := by
  have hl := lineOf_longLine
  have h := (C9_truncation sampleSys.app sampleSys.ctl longLine
    { tv_sec := 1, tv_usec := 0 } 10 11).2 (by rw [hl]; simp [MAX_BUFFER_LEN])
    (by
      intro c hc
      have hs : storedLine longLine = List.replicate 100 '0' := storedLine_longLine
      rw [storedLine] at hs
      rw [hs] at hc
      rw [(List.mem_replicate.1 hc).2]
      rfl)
  simp only [readyTick]
  exact ⟨h.1, by rw [h.2]⟩

/-- C10, as stated, fails: a line of exactly one hundred bits is stored whole (nothing is
drained or discarded, the line does not have more than MAX_BUFFER_LEN-1 characters), yet
`txrx` issues the buffer-full warning. -/
theorem C10_counterexample :
    (lineOf fullLine).length = MAX_BUFFER_LEN - 1 ∧
    ¬ (MAX_BUFFER_LEN - 1 < (lineOf fullLine).length) ∧
    (txrx sampleSys.app sampleSys.ctl (readyTick fullLine)).ctl.controlSequence
      = lineOf fullLine ++ [NUL] ∧
    warnCount (txrx sampleSys.app sampleSys.ctl (readyTick fullLine)).log = 1 := by
  have hb : ∀ c ∈ storedLine fullLine, isBit c = true := by
    rw [storedLine_fullLine]
    intro c hc
    rw [(List.mem_replicate.1 hc).2]
    rfl
  have ht := txrx_commit sampleSys.app sampleSys.ctl fullLine { tv_sec := 1, tv_usec := 0 } 10 11 hb
  simp only [readyTick]
  rw [ht, lineOf_fullLine, storedLine_fullLine]
  refine ⟨by simp [MAX_BUFFER_LEN], by simp [MAX_BUFFER_LEN], ?_, ?_⟩
  · simp [MAX_BUFFER_LEN]
  · simp only [warnCount_append]
    simp [warnCount, logPrint, MAX_BUFFER_LEN, sampleSys, mainInit]

/-- C10 (amended): for every ready line, `txrx` issues the buffer-full warning at most once,
and issues it exactly when the character number MAX_BUFFER_LEN-1 is stored, that is, when the
line has at least MAX_BUFFER_LEN-1 = 100 characters and its first 99 characters are bits.  The
warning is written to the terminal when `debug` is set, and to the log file when `debug` is
set and the file is open. -/
theorem C10_buffer_full_warning (app : AppStruct) (ctl : ControlStruct) (stdin : List Char)
    (left : Timeval) (tRx tOut : Int) :
    warnCount (txrx app ctl { sel := .ready stdin, left := left, tRx := tRx, tOut := tOut }).log
      ≤ 1 ∧
    (warnCount (txrx app ctl { sel := .ready stdin, left := left, tRx := tRx, tOut := tOut }).log
      = 1 ↔
      (MAX_BUFFER_LEN - 1 ≤ (lineOf stdin).length ∧
        ∀ c ∈ (lineOf stdin).take (MAX_BUFFER_LEN - 2), isBit c = true)) ∧
    (∀ e ∈ (txrx app ctl { sel := .ready stdin, left := left, tRx := tRx, tOut := tOut }).log,
      e.msg = .bufferFull →
        e.console = app.debug ∧ e.file = (app.debug && app.logPointer.isSome)) := by
  have key :
      warnCount (txrx app ctl { sel := .ready stdin, left := left, tRx := tRx, tOut := tOut }).log
        ≤ 1 ∧
      (warnCount (txrx app ctl { sel := .ready stdin, left := left, tRx := tRx, tOut := tOut }).log
        = 1 ↔
        (MAX_BUFFER_LEN - 1 ≤ (lineOf stdin).length ∧
          ∀ c ∈ (lineOf stdin).take (MAX_BUFFER_LEN - 2), isBit c = true)) := by
    have hlen : (storedLine stdin).length = min (MAX_BUFFER_LEN - 1) (lineOf stdin).length := by
      simp [storedLine, List.length_take]
    rw [take_lineOf_eq]
    rcases line_cases stdin with hq | ⟨hq, hb⟩ | ⟨hq, b, x, r, hs, hb, hx, hbq⟩
    · rw [txrx_quit app ctl stdin left tRx tOut hq]
      have h0 : warnCount (logPrint false (rxApp app left) Msg.quitApplication) = 0 := by
        simp [warnCount, logPrint]
      rw [h0]
      refine ⟨by omega, ⟨fun h => absurd h (by omega), ?_⟩⟩
      rintro ⟨_, h2⟩
      exfalso
      rw [← storedLine_head] at hq
      cases hst : storedLine stdin with
      | nil => rw [hst] at hq; simp at hq
      | cons c cs =>
        rw [hst] at hq h2
        simp only [List.head?_cons, Option.some.injEq] at hq
        have := h2 c (by simp [MAX_BUFFER_LEN])
        rw [hq] at this
        exact absurd this (by decide)
    · rw [txrx_commit app ctl stdin left tRx tOut hb]
      have hw : ∀ (l : List Event), warnCount
          (l ++ if app.debug = true then
            logPrint false (rxApp app left) .newControlSequence ++
              logPrint false (rxApp app left) (.echo (cString (storedLine stdin ++ '\n' ::
                List.replicate (MAX_BUFFER_LEN - 1 - (storedLine stdin).length) NUL)))
            else []) = warnCount l := by
        intro l
        rw [warnCount_append]
        split_ifs <;> simp [warnCount, logPrint]
      simp only [hw]
      by_cases h100 : (storedLine stdin).length = MAX_BUFFER_LEN - 1
      · simp only [h100, if_true]
        have h1 : warnCount (logPrint false (rxApp app left) Msg.bufferFull) = 1 := by
          simp [warnCount, logPrint]
        rw [h1]
        refine ⟨le_refl _, ⟨fun _ => ⟨by omega, fun c hc => hb c (List.mem_of_mem_take hc)⟩,
          fun _ => rfl⟩⟩
      · simp only [h100, if_false]
        have h0 : warnCount ([] : List Event) = 0 := rfl
        rw [h0]
        refine ⟨by omega, ⟨fun h => absurd h (by omega), ?_⟩⟩
        rintro ⟨h1, _⟩
        omega
    · rw [txrx_reject app ctl stdin left tRx tOut b r x hs hb hx hbq]
      have hl := storedLine_length stdin
      rw [hs] at hl
      simp only [List.length_append, List.length_cons] at hl
      have hw : ∀ (l : List Event), warnCount
          (l ++ if x = 'd' ∧ b = [] then []
            else logPrint false (rxApp app left) .invalidSequence) = warnCount l := by
        intro l
        rw [warnCount_append]
        split_ifs <;> simp [warnCount, logPrint]
      simp only [hw]
      by_cases h99 : b.length + 1 = MAX_BUFFER_LEN - 1
      · simp only [h99, if_true]
        have h1 : warnCount (logPrint false (rxApp app left) Msg.bufferFull) = 1 := by
          simp [warnCount, logPrint]
        rw [h1]
        refine ⟨le_refl _, ⟨fun _ => ⟨?_, ?_⟩, fun _ => rfl⟩⟩
        · have : (storedLine stdin).length = b.length + (r.length + 1) := by
            rw [hs]; simp
          omega
        · intro c hc
          rw [hs] at hc
          have hb99 : MAX_BUFFER_LEN - 2 = b.length := by omega
          rw [hb99, List.take_left] at hc
          exact hb c hc
      · simp only [h99, if_false]
        have h0 : warnCount ([] : List Event) = 0 := rfl
        rw [h0]
        refine ⟨by omega, ⟨fun h => absurd h (by omega), ?_⟩⟩
        rintro ⟨_, h2⟩
        exfalso
        have hx2 : x ∈ (storedLine stdin).take (MAX_BUFFER_LEN - 2) := by
          rw [hs, List.take_append_eq_append_take]
          apply List.mem_append_right
          obtain ⟨n, hn⟩ : ∃ n, MAX_BUFFER_LEN - 2 - b.length = n + 1 :=
            ⟨MAX_BUFFER_LEN - 2 - b.length - 1, by simp only [MAX_BUFFER_LEN] at hl h99 ⊢; omega⟩
          rw [hn, List.take_succ_cons]
          exact List.mem_cons_self _ _
        have := h2 x hx2
        rw [hx] at this
        exact absurd this (by decide)
  exact ⟨key.1, key.2, txrx_warn_sinks app ctl _⟩

/-- C11: for every `logPrint` call with flag `allowTerminal` in a state (`debug`,
`logPointer`): exactly one output event is produced; the text is written to the console if and
only if `debug` or `allowTerminal` is true, and to the log file if and only if `debug` is true
and `logPointer` is not `NULL`; hence a text written to the file is also written to the
console, nothing is written to the file while `debug` is false, and the same holds for every
event of every loop iteration. -/
theorem C11_logPrint_sinks (allowTerminal : Bool) (appStruct : AppStruct) (msg : Msg) :
    (∃ e, logPrint allowTerminal appStruct msg = [e] ∧ e.msg = msg ∧
      (e.console = true ↔ (appStruct.debug = true ∨ allowTerminal = true)) ∧
      (e.file = true ↔ (appStruct.debug = true ∧ appStruct.logPointer ≠ none)) ∧
      (e.file = true → e.console = true) ∧
      (appStruct.debug = false → e.file = false)) ∧
    (∀ (s : Sys) (env : Tick), ∀ e ∈ (loopBody s env).2, e.file = true → e.console = true) := by
  refine ⟨⟨_, rfl, rfl, ?_, ?_, ?_, ?_⟩, fun s env e he => gated_loopBody s env e he⟩
  · simp
  · simp [Option.isSome_iff_ne_none]
  · intro h
    simp only [Bool.and_eq_true] at h
    simp [h.1]
  · intro h
    simp [h]

/-- C12: over the options delivered by `getopt` (period values as exact numbers):
`getSettings` with no options returns 0 with `debug = true`, `cyclePeriod = 2.5` and
`logFile = "log.txt"`; when a `-t` option with value `v` is reached it is accepted
(`cyclePeriod = v`, processing continues) if `0 < v < 3600` and otherwise makes `getSettings`
return -1; a `-d` option whose value starts with neither `0` nor `1` makes it return -1; `-h`
makes it return 1; and `main` enters the loop exactly when the result is 0, ending with
`EXIT_FAILURE` on a negative and `EXIT_SUCCESS` on a positive result. -/
theorem C12_getSettings :
    (∀ argc : Nat,
      (getSettings argc []).ret = 0 ∧
      (getSettings argc []).settings =
        { debug := true, logFile := "log.txt", cyclePeriod := 5 / 2 }) ∧
    (∀ (argc : Nat) (v : Rat) (rest : List GetoptResult) (st : SettingStruct),
      (0 < v ∧ v < 3600 →
        getSettingsLoop argc (.t v :: rest) st =
          getSettingsLoop argc rest { st with cyclePeriod := v }) ∧
      (¬ (0 < v ∧ v < 3600) → (getSettingsLoop argc (.t v :: rest) st).ret = -1)) ∧
    (∀ (argc : Nat) (v : Rat),
      ((getSettings argc [.t v]).ret = 0 ∧ (getSettings argc [.t v]).settings.cyclePeriod = v ↔
        0 < v ∧ v < 3600) ∧
      ((getSettings argc [.t v]).ret = -1 ↔ ¬ (0 < v ∧ v < 3600))) ∧
    (∀ (argc : Nat) (optarg : List Char) (rest : List GetoptResult) (st : SettingStruct),
      optarg.head? ≠ some '0' → optarg.head? ≠ some '1' →
      (getSettingsLoop argc (.d optarg :: rest) st).ret = -1) ∧
    (∀ (argc : Nat) (rest : List GetoptResult) (st : SettingStruct),
      (getSettingsLoop argc (.h :: rest) st).ret = 1) ∧
    (∀ (argc : Nat) (opts : List GetoptResult) (fopenResult : Option Nat) (t0 : Int),
      ((∃ s, mainStartup argc opts fopenResult t0 = .running s) ↔
        (getSettings argc opts).ret = 0) ∧
      ((getSettings argc opts).ret = 0 →
        ∀ ticks, main argc opts fopenResult t0 ticks =
          runLoop (mainInit (startupOf (getSettings argc opts) fopenResult t0)) ticks) ∧
      ((getSettings argc opts).ret < 0 →
        ∀ ticks, main argc opts fopenResult t0 ticks =
          (.exited { status := EXIT_FAILURE, closed := false }, [])) ∧
      ((getSettings argc opts).ret > 0 →
        ∀ ticks, main argc opts fopenResult t0 ticks =
          (.exited { status := EXIT_SUCCESS, closed := false }, []))) := by
  refine ⟨?_, ?_, ?_, ?_, ?_, ?_⟩
  · intro argc
    exact ⟨rfl, rfl⟩
  · intro argc v rest st
    constructor
    · intro hv
      have hv2 : v > 0 ∧ v < MAX_PERIOD_S := by simpa [MAX_PERIOD_S] using hv
      simp only [getSettingsLoop, hv2, and_self, if_true]
    · intro hv
      have hv2 : ¬ (v > 0 ∧ v < MAX_PERIOD_S) := by simpa [MAX_PERIOD_S] using hv
      simp only [getSettingsLoop, hv2, if_false]
  · intro argc v
    by_cases hv : 0 < v ∧ v < 3600
    · have hv2 : v > 0 ∧ v < MAX_PERIOD_S := by simpa [MAX_PERIOD_S] using hv
      have e : getSettings argc [.t v] =
          getSettingsLoop argc []
            { debug := DEFAULT_DEBUG, logFile := DEFAULT_LOG_NAME, cyclePeriod := v } := by
        simp only [getSettings, getSettingsLoop, hv2, and_self, if_true]
      rw [e]
      simp [getSettingsLoop, hv]
    · have hv2 : ¬ (v > 0 ∧ v < MAX_PERIOD_S) := by simpa [MAX_PERIOD_S] using hv
      have e : getSettings argc [.t v] =
          { ret := -1
            settings :=
              { debug := DEFAULT_DEBUG, logFile := DEFAULT_LOG_NAME
                cyclePeriod := DEFAULT_PERIOD_S }
            printed := [.invalidPeriod] } := by
        simp only [getSettings, getSettingsLoop, hv2, if_false]
      rw [e]
      simp [hv]
  · intro argc optarg rest st h0 h1
    simp only [getSettingsLoop, h0, h1, if_false]
  · intro argc rest st
    simp only [getSettingsLoop]
  · intro argc opts fopenResult t0
    rcases getSettingsLoop_ret argc opts
      { debug := DEFAULT_DEBUG, logFile := DEFAULT_LOG_NAME, cyclePeriod := DEFAULT_PERIOD_S }
      with h | h | h
    all_goals
      have h' : (getSettings argc opts).ret = _ := h
      simp [main, mainStartup, h', terminateApp, preApp]

/-- C12 on the command lines `-t 1.5` (accepted), `-t 3600` (rejected), `-d x` (rejected)
and `-h`. -/
theorem C12_getSettings_witness :
    (getSettings 3 [.t (3 / 2)]).ret = 0 ∧
    (getSettings 3 [.t (3 / 2)]).settings.cyclePeriod = 3 / 2 ∧
    (getSettings 3 [.t 3600]).ret = -1 ∧
    (getSettingsLoop 3 [.d ['x']]
      { debug := true, logFile := "log.txt", cyclePeriod := 5 / 2 }).ret = -1 ∧
    (getSettingsLoop 2 [.h]
      { debug := true, logFile := "log.txt", cyclePeriod := 5 / 2 }).ret = 1 := by
  have h1 := (C12_getSettings.2.2.1 3 (3 / 2)).1.2 (by norm_num)
  have h2 := (C12_getSettings.2.2.1 3 3600).2.2 (by norm_num)
  have h3 := C12_getSettings.2.2.2.1 3 ['x'] []
    { debug := true, logFile := "log.txt", cyclePeriod := 5 / 2 } (by decide) (by decide)
  have h4 := C12_getSettings.2.2.2.2.1 2 []
    { debug := true, logFile := "log.txt", cyclePeriod := 5 / 2 }
  exact ⟨h1.1, h1.2, h2, h3, h4⟩

/-- C14: on every state with `updateTimer` true whose cursor is not negative and whose
`controlSequence` holds only `0`/`1` below `numberOfPeriods` (as in every reachable state),
`controlOutput`, written as two sequential if-blocks with a catch-all OFF branch, yields the
same state and the same output as the specified if / else-if algorithm: with
`periodCounter == numberOfPeriods` it logs the idle message and sets `periodCounter` to
`numberOfPeriods + 1` without an actuation; with `periodCounter < numberOfPeriods` it emits
the actuation of the bit (ON for `1`, OFF for `0`) and increments `periodCounter`; it never
logs the idle message and an actuation in one call, and its output always ends with the
elapsed time. -/
theorem C14_controlOutput_refines (app : AppStruct) (ctl : ControlStruct) (now : Int)
    (hu : app.updateTimer = true) (h0 : 0 ≤ ctl.periodCounter)
    (hbits : ∀ i : Nat, (i : Int) < ctl.numberOfPeriods →
      ctl.controlSequence.get? i = some '0' ∨ ctl.controlSequence.get? i = some '1') :
    controlOutput app ctl now = cycleDriverSpec app ctl now ∧
    (ctl.periodCounter = ctl.numberOfPeriods →
      (controlOutput app ctl now).1 = { ctl with periodCounter := ctl.numberOfPeriods + 1 } ∧
      idleCount (controlOutput app ctl now).2 = 1 ∧
      actuations (controlOutput app ctl now).2 = []) ∧
    (ctl.periodCounter < ctl.numberOfPeriods →
      (controlOutput app ctl now).1 = { ctl with periodCounter := ctl.periodCounter + 1 } ∧
      idleCount (controlOutput app ctl now).2 = 0 ∧
      ((readSequence ctl.controlSequence ctl.periodCounter = some '1' ∧
          actuations (controlOutput app ctl now).2 = [.on]) ∨
        (readSequence ctl.controlSequence ctl.periodCounter = some '0' ∧
          actuations (controlOutput app ctl now).2 = [.off]))) ∧
    (idleCount (controlOutput app ctl now).2 = 0 ∨
      actuations (controlOutput app ctl now).2 = []) ∧
    (∃ pre, (controlOutput app ctl now).2 =
      pre ++ logPrint false app (.elapsed (now - app.timeKeeper))) := by
  rcases lt_trichotomy ctl.periodCounter ctl.numberOfPeriods with hlt | heq | hgt
  · have hne : ¬ (ctl.periodCounter = ctl.numberOfPeriods) := by omega
    have hngt : ¬ (ctl.numberOfPeriods < ctl.periodCounter) := by omega
    rw [controlOutput_play app ctl now hu hlt]
    have hidle : idleCount (((if readSequence ctl.controlSequence ctl.periodCounter = some '1'
        then logPrint true app .on else logPrint true app .off)
          ++ (if app.debug = false then [{ msg := .newline, console := true, file := false }]
              else []))
          ++ logPrint false app (.elapsed (now - app.timeKeeper))) = 0 := by
      simp only [idleCount_append]
      split_ifs <;> simp [idleCount, logPrint]
    refine ⟨?_, fun h => absurd h hne, fun _ => ⟨rfl, hidle, ?_⟩, Or.inl hidle, ⟨_, rfl⟩⟩
    · simp only [cycleDriverSpec, hu, hne, hlt, if_true, if_false]
      rcases readSequence_bit ctl h0 hlt hbits with hb | hb
      · rw [hb]
        cases hd : app.debug <;> simp
      · rw [hb]
        cases hd : app.debug <;> simp
    · rcases readSequence_bit ctl h0 hlt hbits with hb | hb
      · right
        refine ⟨hb, ?_⟩
        rw [hb]
        simp only [actuations_append]
        cases hd : app.debug <;> simp [actuations, logPrint]
      · left
        refine ⟨hb, ?_⟩
        rw [hb]
        simp only [actuations_append]
        cases hd : app.debug <;> simp [actuations, logPrint]
  · rw [controlOutput_idle app ctl now hu heq]
    have hact : actuations (logPrint false app .noInputSequence
        ++ logPrint false app (.elapsed (now - app.timeKeeper))) = [] := by
      simp [actuations, logPrint]
    refine ⟨?_, fun _ => ⟨by simp [heq], by simp [idleCount, logPrint], hact⟩,
      fun h => absurd h (by omega), Or.inr hact, ⟨_, rfl⟩⟩
    simp [cycleDriverSpec, hu, heq]
  · have hne : ¬ (ctl.periodCounter = ctl.numberOfPeriods) := by omega
    have hnlt : ¬ (ctl.periodCounter < ctl.numberOfPeriods) := by omega
    rw [controlOutput_silent app ctl now hu hgt]
    refine ⟨?_, fun h => absurd h hne, fun h => absurd h hnlt,
      Or.inl (by simp [idleCount, logPrint]), ⟨[], rfl⟩⟩
    simp [cycleDriverSpec, hu, hne, hnlt]

/-- C14 on the state reached after the line `10` and two time-outs, with the cursor moved
back to the first bit: `controlOutput` agrees with the specified algorithm and emits ON. -/
theorem C14_controlOutput_refines_witness :
    controlOutput sampleAfter.app { sampleAfter.ctl with periodCounter := 0 } 12 =
      cycleDriverSpec sampleAfter.app { sampleAfter.ctl with periodCounter := 0 } 12 ∧
    actuations (controlOutput sampleAfter.app { sampleAfter.ctl with periodCounter := 0 } 12).2
      = [.on] := by
  have h := C14_controlOutput_refines sampleAfter.app
    { sampleAfter.ctl with periodCounter := 0 } 12 (by decide) (by decide)
    (fun i hi => (ctlInv_reachable sampleAfter sampleAfter_reachable).2.2.2.2 i hi)
  refine ⟨h.1, ?_⟩
  rcases h.2.2.1 (by decide) with h2
  rcases h2.2.2 with ⟨_, h3⟩ | ⟨h3, _⟩
  · exact h3
  · exact absurd h3 (by decide)

/-- C15 at the failing input, the option `-t 1.97`: the `float` 1.97 is accepted by
`getSettings`; `setPeriod` takes the seconds from `floor` (1) and the tenths from
`round(period*10) % 10` (20 % 10 = 0) without carrying into the seconds, so the `timeval` is
`tv_sec = 1`, `tv_usec = 0`, a duration of 1.0 second, although the period rounded to the
nearest tenth of a second is 2.0.  For the default 2.5 the `timeval` is `tv_sec = 2`,
`tv_usec = 500000`. -/
theorem C15_setPeriod_loses_carry :
    toFloat (197 / 100) = 8262779 / 4194304 ∧
    (getSettings 3 [.t (toFloat (197 / 100))]).ret = 0 ∧
    (getSettings 3 [.t (toFloat (197 / 100))]).settings.cyclePeriod = toFloat (197 / 100) ∧
    setPeriod (toFloat (197 / 100)) = { tv_sec := 1, tv_usec := 0 } ∧
    duration (setPeriod (toFloat (197 / 100))) = 1 ∧
    roundTenth (toFloat (197 / 100)) = 2 ∧
    setPeriod DEFAULT_PERIOD_S = { tv_sec := 2, tv_usec := 500000 } := by
  have hv : toFloat (197 / 100) > 0 ∧ toFloat (197 / 100) < MAX_PERIOD_S := by
    rw [toFloat_197, MAX_PERIOD_S]
    norm_num
  have hg : getSettings 3 [.t (toFloat (197 / 100))] =
      getSettingsLoop 3 []
        { debug := DEFAULT_DEBUG, logFile := DEFAULT_LOG_NAME
          cyclePeriod := toFloat (197 / 100) } := by
    simp only [getSettings, getSettingsLoop, hv, and_self, if_true]
  have hr : roundTenth (toFloat (197 / 100)) = 2 := by
    have h20 : cRound (8262779 / 4194304 * 10) = 20 :=
      cRound_eq _ 20 (by norm_num) (by norm_num) (by norm_num)
    simp only [roundTenth, toFloat_197, h20]
    norm_num
  refine ⟨toFloat_197, by rw [hg]; rfl, by rw [hg]; rfl, setPeriod_197, ?_, hr, setPeriod_default⟩
  rw [setPeriod_197]
  simp [duration]

/-- C17: every state reachable by the loop of `main` satisfies
`0 <= numberOfPeriods <= MAX_BUFFER_LEN-1` and `0 <= periodCounter <= numberOfPeriods + 1`,
and each of `txrx` and `controlOutput` preserves this predicate. -/
theorem C17_counter_bounds :
    (∀ s : Sys, Reachable s → CtlBounds s.ctl) ∧
    (∀ (app : AppStruct) (ctl : ControlStruct) (env : Tick),
      CtlBounds ctl → CtlBounds (txrx app ctl env).ctl) ∧
    (∀ (app : AppStruct) (ctl : ControlStruct) (now : Int),
      CtlBounds ctl → CtlBounds (controlOutput app ctl now).1) :=
  ⟨fun s h => ctlBounds_of_inv _ (ctlInv_reachable s h), ctlBounds_txrx, ctlBounds_controlOutput⟩

/-- C17 on the state reached after the line `10` and two time-outs. -/
theorem C17_counter_bounds_witness :
    0 ≤ sampleAfter.ctl.numberOfPeriods ∧ sampleAfter.ctl.numberOfPeriods ≤ 100 ∧
    0 ≤ sampleAfter.ctl.periodCounter ∧
    sampleAfter.ctl.periodCounter ≤ sampleAfter.ctl.numberOfPeriods + 1 :=
  C17_counter_bounds.1 sampleAfter sampleAfter_reachable

/-- C18 at the failing input: in the initial state of `main` with the default settings
(`debug` on), the line of one hundred `'0'` is stored whole (`count = 100`), the line feed is
written into the last byte `buffer[100]`, so that `buffer` holds `MAX_BUFFER_LEN` characters
and no NUL, and the `"%s"` read of `buffer` runs past the end of the array. -/
theorem C18_echo_read_overruns :
    mainStartup 1 [] (some 3) 0 = .running sampleSys ∧
    Reachable sampleSys ∧ sampleSys.app.debug = true ∧
    (txrx sampleSys.app sampleSys.ctl (readyTick fullLine)).app.buffer
      = List.replicate 100 '0' ++ ['\n'] ∧
    (txrx sampleSys.app sampleSys.ctl (readyTick fullLine)).app.buffer.length = MAX_BUFFER_LEN ∧
    NUL ∉ (txrx sampleSys.app sampleSys.ctl (readyTick fullLine)).app.buffer ∧
    txrxChecked sampleSys.app sampleSys.ctl (readyTick fullLine) = .error .stringRead := by
  have hb : ∀ c ∈ storedLine fullLine, isBit c = true := by
    rw [storedLine_fullLine]
    intro c hc
    rw [(List.mem_replicate.1 hc).2]
    rfl
  have ht := txrx_commit sampleSys.app sampleSys.ctl fullLine { tv_sec := 1, tv_usec := 0 } 10 11 hb
  have hbuf : (txrx sampleSys.app sampleSys.ctl (readyTick fullLine)).app.buffer
      = List.replicate 100 '0' ++ ['\n'] := by
    simp only [readyTick]
    rw [ht, storedLine_fullLine]
    simp [MAX_BUFFER_LEN]
  have hover : echoOverrun sampleSys.app (readyTick fullLine) = true := by
    simp only [echoOverrun, readyTick, storedLine_fullLine]
    simp [sampleSys, mainInit, MAX_BUFFER_LEN, isBit]
  refine ⟨mainStartup_default, ⟨_, [], rfl⟩, rfl, hbuf, ?_, ?_, ?_⟩
  · rw [hbuf]; simp [MAX_BUFFER_LEN]
  · rw [hbuf]
    intro h
    rcases List.mem_append.1 h with h | h
    · exact absurd (List.mem_replicate.1 h).2 (by decide)
    · simp only [List.mem_singleton] at h
      exact absurd h (by decide)
  · rw [txrxChecked_spec, hover]
    rfl

end HeaterController
